import Mathlib

/-!
Verification of the clusterwise linear regression core (`clr.py`).

The source is embedded shallowly over exact rationals:
* numpy arrays become functions `ℕ → ℚ` (vectors) and `ℕ → ℕ → ℚ`
  (matrices) together with explicit dimensions;
* the pluggable regression backend (an external collaborator with a
  `fit`/`predict` contract) becomes a `Reg` structure over an abstract
  model-state type;
* the real-analytic primitives used by the fuzzy variant
  (`np.exp`, `np.sqrt`, `np.log`, `np.pi`) become abstract rational
  stand-ins collected in `NumOps`, with their relevant order
  properties (positivity) taken as hypotheses where a claim needs them;
* `np.allclose` becomes the exact rational predicate
  `|a - b| ≤ atol + rtol * |b|`, elementwise.
-/

namespace ClrSpec

/-- Vectors: numpy 1-d arrays as index functions. -/
abbrev Vec := ℕ → ℚ

/-- Matrices: numpy 2-d arrays as curried index functions. -/
abbrev Mat := ℕ → ℕ → ℚ

/-- Sum of `f 0 + ... + f (n-1)`, the embedding of `np.sum` over an axis. -/
def sumR (n : ℕ) (f : ℕ → ℚ) : ℚ := ∑ i ∈ Finset.range n, f i

/-- Auxiliary scanner for `np.argmin`: `n` indices left to visit, `j` the
next index, `best` the current first-minimal index. -/
def argminGo (f : ℕ → ℚ) : ℕ → ℕ → ℕ → ℕ
  | 0, _, best => best
  | n + 1, j, best => argminGo f n (j + 1) (if f j < f best then j else best)

/-- Embedding of `np.argmin` over indices `0, ..., k-1`: first index
attaining the minimum. -/
def argminVec (k : ℕ) (f : ℕ → ℚ) : ℕ := argminGo f k 0 0

/-- Auxiliary scanner for `np.argmax`, mirroring `argminGo`. -/
def argmaxGo (f : ℕ → ℚ) : ℕ → ℕ → ℕ → ℕ
  | 0, _, best => best
  | n + 1, j, best => argmaxGo f n (j + 1) (if f best < f j then j else best)

/-- Embedding of `np.argmax` over indices `0, ..., k-1`: first index
attaining the maximum. -/
def argmaxVec (k : ℕ) (f : ℕ → ℚ) : ℕ := argmaxGo f k 0 0

/-- Embedding of `np.allclose(A, B, rtol, atol)` on `N × k` matrices:
elementwise `|A i c - B i c| ≤ atol + rtol * |B i c|`. -/
def npAllcloseMat (N k : ℕ) (rtol atol : ℚ) (A B : Mat) : Bool :=
  (List.range N).all fun i =>
    (List.range k).all fun c =>
      decide (|A i c - B i c| ≤ atol + rtol * |B i c|)

/-- Embedding of `np.allclose(a, b)` with numpy's default tolerances
(`rtol = 1e-5`, `atol = 1e-8`) on integer label vectors of length `N`. -/
def npAllcloseLabels (N : ℕ) (a b : ℕ → ℕ) : Bool :=
  (List.range N).all fun i =>
    decide (|(a i : ℚ) - (b i : ℚ)| ≤ 1 / 100000000 + 1 / 100000 * |(b i : ℚ)|)

theorem argminGo_spec (f : ℕ → ℚ) :
    ∀ n j best, best < j → (∀ i < j, f best ≤ f i) → (∀ i < best, f best < f i) →
      argminGo f n j best < j + n ∧
      (∀ i < j + n, f (argminGo f n j best) ≤ f i) ∧
      (∀ i < argminGo f n j best, f (argminGo f n j best) < f i) := by
  intro n
  induction n with
  | zero =>
      intro j best hbj hle hlt
      simp only [argminGo]
      exact ⟨by omega, fun i hi => hle i (by omega), hlt⟩
  | succ n ih =>
      intro j best hbj hle hlt
      have hstep :
          argminGo f (n + 1) j best =
            argminGo f n (j + 1) (if f j < f best then j else best) := rfl
      by_cases hc : f j < f best
      · have h1 : (∀ i < j + 1, f j ≤ f i) := by
          intro i hi
          rcases Nat.lt_succ_iff_lt_or_eq.mp hi with hi' | hi'
          · exact le_of_lt (lt_of_lt_of_le hc (hle i hi'))
          · simp [hi']
        have h2 : (∀ i < j, f j < f i) := by
          intro i hi
          exact lt_of_lt_of_le hc (hle i hi)
        have := ih (j + 1) j (Nat.lt_succ_self j) h1 h2
        rw [hstep, if_pos hc]
        refine ⟨by omega, fun i hi => this.2.1 i (by omega), this.2.2⟩
      · have h1 : (∀ i < j + 1, f best ≤ f i) := by
          intro i hi
          rcases Nat.lt_succ_iff_lt_or_eq.mp hi with hi' | hi'
          · exact hle i hi'
          · subst hi'; exact le_of_not_lt hc
        have := ih (j + 1) best (by omega) h1 hlt
        rw [hstep, if_neg hc]
        refine ⟨by omega, fun i hi => this.2.1 i (by omega), this.2.2⟩

/-- Specification of `argminVec`: for nonempty index ranges it returns an
index below `k` that attains the minimum, and every earlier index has a
strictly larger value (numpy's first-occurrence tie-break). -/
theorem argminVec_spec (f : ℕ → ℚ) (k : ℕ) (hk : 0 < k) :
    argminVec k f < k ∧
    (∀ i < k, f (argminVec k f) ≤ f i) ∧
    (∀ i < argminVec k f, f (argminVec k f) < f i) := by
  obtain ⟨m, rfl⟩ : ∃ m, k = m + 1 := ⟨k - 1, by omega⟩
  have hstep : argminVec (m + 1) f = argminGo f m 1 0 := by
    show argminGo f (m + 1) 0 0 = argminGo f m 1 0
    show argminGo f m 1 (if f 0 < f 0 then 0 else 0) = argminGo f m 1 0
    simp
  have := argminGo_spec f m 1 0 Nat.one_pos
    (by intro i hi; interval_cases i; exact le_refl _)
    (by intro i hi; omega)
  rw [hstep]
  exact ⟨by omega, fun i hi => this.2.1 i (by omega), this.2.2⟩

/-- When `f` has a unique strict minimum at `j`, `argminVec` returns `j`. -/
theorem argminVec_eq_of_uniqueMin (f : ℕ → ℚ) (k j : ℕ) (hj : j < k)
    (hmin : ∀ i < k, i ≠ j → f j < f i) : argminVec k f = j := by
  obtain ⟨hlt, hle, _⟩ := argminVec_spec f k (by omega)
  by_contra hne
  exact absurd (hle j hj) (not_le_of_lt (hmin _ hlt hne))

/-- Indices `i < N` with `sel i = cid`: the embedding of boolean-mask
indexing `arr[sel == cid]`, in ascending index order. -/
def maskList (N : ℕ) (sel : ℕ → ℕ) (cid : ℕ) : List ℕ :=
  (List.range N).filter fun i => decide (sel i = cid)

/-- Embedding of `np.mean(scores[constr == c_id], axis=0)` at column `j`. -/
def groupMeanScore (N : ℕ) (scores : Mat) (cs : ℕ → ℕ) (cid : ℕ) (j : ℕ) : ℚ :=
  ((maskList N cs cid).map fun i => scores i j).sum / (maskList N cs cid).length

/-- Embedding of `constr.max()` (group ids are natural numbers). -/
def constrMax (N : ℕ) (cs : ℕ → ℕ) : ℕ := ((List.range N).map cs).foldl max 0

/-- Body of the constrained-reassignment loop:
`labels[constr == c_id] = np.argmin(np.mean(scores[constr == c_id], axis=0))`. -/
def constrAssignStep (N k : ℕ) (scores : Mat) (cs : ℕ → ℕ)
    (labels : ℕ → ℕ) (cid : ℕ) : ℕ → ℕ :=
  fun i => if cs i = cid then argminVec k (groupMeanScore N scores cs cid) else labels i

/-- Embedding of `reassign_labels(scores, constr)`.  `junk` stands for the
unspecified initial contents of `np.empty`. -/
def reassign_labels (N k : ℕ) (scores : Mat) (constr : Option (ℕ → ℕ))
    (junk : ℕ → ℕ) : ℕ → ℕ :=
  match constr with
  | none => fun i => argminVec k (scores i)
  | some cs =>
      (List.range (constrMax N cs + 1)).foldl (constrAssignStep N k scores cs) junk

theorem foldl_max_le_init : ∀ (l : List ℕ) (b : ℕ), b ≤ l.foldl max b := by
  intro l
  induction l with
  | nil => intro b; exact le_refl b
  | cons a l ih =>
      intro b
      exact le_trans (Nat.le_max_left b a) (ih (max b a))

theorem le_foldl_max : ∀ (l : List ℕ) (b x : ℕ), x ∈ l → x ≤ l.foldl max b := by
  intro l
  induction l with
  | nil => intro b x hx; cases hx
  | cons a l ih =>
      intro b x hx
      rcases List.mem_cons.mp hx with rfl | hx'
      · exact le_trans (Nat.le_max_right b x) (foldl_max_le_init l (max b x))
      · exact ih (max b a) x hx'

theorem constrAssignStep_apply (N k : ℕ) (scores : Mat) (cs : ℕ → ℕ)
    (labels : ℕ → ℕ) (cid i : ℕ) :
    constrAssignStep N k scores cs labels cid i
      = if cs i = cid then argminVec k (groupMeanScore N scores cs cid) else labels i := rfl

theorem constrFold_eval (N k : ℕ) (scores : Mat) (cs junk : ℕ → ℕ) :
    ∀ m i, (List.range m).foldl (constrAssignStep N k scores cs) junk i
      = if cs i < m then argminVec k (groupMeanScore N scores cs (cs i)) else junk i := by
  intro m
  induction m with
  | zero => intro i; simp
  | succ m ih =>
      intro i
      rw [List.range_succ, List.foldl_append, List.foldl_cons, List.foldl_nil,
        constrAssignStep_apply]
      by_cases hc : cs i = m
      · rw [if_pos hc, if_pos (by omega), hc]
      · rw [if_neg hc, ih i]
        by_cases h2 : cs i < m
        · rw [if_pos h2, if_pos (by omega)]
        · rw [if_neg h2, if_neg (by omega)]

/-- C1: with `constraints = None`, `reassign_labels` maps each of the `N`
points to the index of the minimum score in its row (lower is better),
ties broken by the first index attaining the minimum, and every returned
label lies in `[0, k)`. -/
theorem c1_unconstrained_argmin (N k : ℕ) (scores : Mat) (junk : ℕ → ℕ)
    (hk : 0 < k) :
    ∀ i < N,
      reassign_labels N k scores none junk i = argminVec k (scores i) ∧
      reassign_labels N k scores none junk i < k ∧
      (∀ j < k, scores i (reassign_labels N k scores none junk i) ≤ scores i j) ∧
      (∀ j < reassign_labels N k scores none junk i,
          scores i (reassign_labels N k scores none junk i) < scores i j) := by
  intro i _
  obtain ⟨h1, h2, h3⟩ := argminVec_spec (scores i) k hk
  exact ⟨rfl, h1, h2, h3⟩

/-- Witness for C1 at a concrete 2 × 2 score matrix. -/
theorem c1_witness :
    (0 : ℕ) < 2 ∧
      reassign_labels 2 2 (fun i j => (i : ℚ) + j) none (fun _ => 42) 0 < 2 :=
  ⟨by norm_num,
    ((c1_unconstrained_argmin 2 2 (fun i j => (i : ℚ) + j) (fun _ => 42)
      (by norm_num)) 0 (by norm_num)).2.1⟩

/-- C4: with a constraints sequence, every point receives the argmin of the
mean score vector of its group (mean over the group's rows, per cluster
column), so points sharing a group id always share one label. -/
theorem c4_constrained_group_argmin (N k : ℕ) (scores : Mat) (cs junk : ℕ → ℕ) :
    (∀ i < N, reassign_labels N k scores (some cs) junk i
        = argminVec k (groupMeanScore N scores cs (cs i))) ∧
    (∀ i₁ < N, ∀ i₂ < N, cs i₁ = cs i₂ →
        reassign_labels N k scores (some cs) junk i₁
          = reassign_labels N k scores (some cs) junk i₂) := by
  have key : ∀ i < N, reassign_labels N k scores (some cs) junk i
      = argminVec k (groupMeanScore N scores cs (cs i)) := by
    intro i hi
    show (List.range (constrMax N cs + 1)).foldl (constrAssignStep N k scores cs) junk i = _
    rw [constrFold_eval]
    have hle : cs i ≤ constrMax N cs :=
      le_foldl_max _ 0 _ (List.mem_map_of_mem cs (List.mem_range.mpr hi))
    rw [if_pos (by omega)]
  exact ⟨key, fun i₁ h₁ i₂ h₂ he => by rw [key i₁ h₁, key i₂ h₂, he]⟩

/-- Witness for C4 at a concrete 2-point, one-group instance. -/
theorem c4_witness :
    reassign_labels 2 2 (fun _ j => (j : ℚ)) (some fun _ => 0) (fun _ => 42) 0
        = argminVec 2 (groupMeanScore 2 (fun _ j => (j : ℚ)) (fun _ => 0) 0) ∧
    reassign_labels 2 2 (fun _ j => (j : ℚ)) (some fun _ => 0) (fun _ => 42) 0
        = reassign_labels 2 2 (fun _ j => (j : ℚ)) (some fun _ => 0) (fun _ => 42) 1 :=
  ⟨(c4_constrained_group_argmin 2 2 (fun _ j => (j : ℚ)) (fun _ => 0)
        (fun _ => 42)).1 0 (by norm_num),
    (c4_constrained_group_argmin 2 2 (fun _ j => (j : ℚ)) (fun _ => 0)
        (fun _ => 42)).2 0 (by norm_num) 1 (by norm_num) rfl⟩

/-- The external regression collaborator: a prototype configuration whose
clones start in state `init`, refit from scratch on a list of
(feature-row, target) samples, and predict a target from a feature row. -/
structure Reg (σ : Type) where
  init : σ
  fit : List (Vec × ℚ) → σ
  predict : σ → Vec → ℚ

/-- Result of a convergence-checked iteration loop: final state, number of
executed loop bodies, and whether the loop stopped at its `break`. -/
structure LoopOut (β : Type) where
  st : β
  iters : ℕ
  early : Bool

/-- Embedding of `for it in range(max_iter): body; if conv: break` where
`step` is one loop body and `cnv` the break condition on the post-body
state. -/
def runLoop {β : Type} (step : β → β) (cnv : β → Bool) : ℕ → LoopOut β → LoopOut β
  | 0, out => out
  | fuel + 1, out =>
      let s2 := step out.st
      let out2 : LoopOut β := ⟨s2, out.iters + 1, cnv s2⟩
      if cnv s2 then out2 else runLoop step cnv fuel out2

theorem runLoop_succ {β : Type} (step : β → β) (cnv : β → Bool) (n : ℕ)
    (out : LoopOut β) :
    runLoop step cnv (n + 1) out =
      if cnv (step out.st) then ⟨step out.st, out.iters + 1, cnv (step out.st)⟩
      else runLoop step cnv n ⟨step out.st, out.iters + 1, cnv (step out.st)⟩ := rfl

theorem runLoop_spec {β : Type} (step : β → β) (cnv : β → Bool) :
    ∀ fuel (out : LoopOut β), out.early = false → 1 ≤ fuel →
      ((runLoop step cnv fuel out).early = true ↔
          cnv (runLoop step cnv fuel out).st = true) ∧
      ((runLoop step cnv fuel out).early = false →
          (runLoop step cnv fuel out).iters = out.iters + fuel) ∧
      ((runLoop step cnv fuel out).early = true →
          out.iters < (runLoop step cnv fuel out).iters ∧
          (runLoop step cnv fuel out).iters ≤ out.iters + fuel) := by
  intro fuel
  induction fuel with
  | zero => intro out _ h; omega
  | succ n ih =>
      intro out _ _
      rw [runLoop_succ]
      by_cases hc : cnv (step out.st) = true
      · rw [if_pos hc]
        refine ⟨by simp [hc], by simp [hc], fun _ => ?_⟩
        exact ⟨Nat.lt_succ_self _, Nat.add_le_add_left (by omega) _⟩
      · rw [if_neg hc]
        rcases n with - | m
        · exact ⟨Iff.rfl, fun _ => rfl, fun h => absurd h hc⟩
        · have key := ih ⟨step out.st, out.iters + 1, cnv (step out.st)⟩
            (by simp at hc; exact hc) (by omega)
          have e1 : (⟨step out.st, out.iters + 1, cnv (step out.st)⟩ :
              LoopOut β).iters = out.iters + 1 := rfl
          rw [e1] at key
          refine ⟨key.1, fun h => ?_, fun h => ?_⟩
          · have h2 := key.2.1 h; omega
          · have h2 := key.2.2 h; omega

theorem runLoop_st_of_pos {β : Type} (step : β → β) (cnv : β → Bool) :
    ∀ fuel (out : LoopOut β), 1 ≤ fuel →
      ∃ b, (runLoop step cnv fuel out).st = step b := by
  intro fuel
  induction fuel with
  | zero => intro out h; omega
  | succ n ih =>
      intro out _
      rw [runLoop_succ]
      by_cases hc : cnv (step out.st) = true
      · rw [if_pos hc]; exact ⟨out.st, rfl⟩
      · rw [if_neg hc]
        rcases n with - | m
        · exact ⟨out.st, rfl⟩
        · exact ih _ (by omega)

theorem runLoop_inv {β : Type} (step : β → β) (cnv : β → Bool) (P : β → Prop)
    (hstep : ∀ b, P b → P (step b)) :
    ∀ fuel (out : LoopOut β), P out.st →
      P (runLoop step cnv fuel out).st := by
  intro fuel
  induction fuel with
  | zero => intro out h; exact h
  | succ n ih =>
      intro out h
      rw [runLoop_succ]
      by_cases hc : cnv (step out.st) = true
      · rw [if_pos hc]; exact hstep _ h
      · rw [if_neg hc]; exact ih _ (hstep _ h)

/-- Mutable state of the hard-CLR loop: current and previous labels, the
per-cluster model states, and the score/prediction matrices. -/
structure ClrSt (σ : Type) where
  labels : ℕ → ℕ
  labelsPrev : ℕ → ℕ
  models : ℕ → σ
  scores : Mat
  preds : Mat

/-- Model rebuild step of `clr`: clusters with at least one assigned point
are refit on exactly their points; empty clusters keep their model. -/
def clrModels {σ : Type} (R : Reg σ) (X : Mat) (y : Vec) (N : ℕ)
    (labels : ℕ → ℕ) (models : ℕ → σ) (cl : ℕ) : σ :=
  if maskList N labels cl = [] then models cl
  else R.fit ((maskList N labels cl).map fun i => (X i, y i))

/-- Embedding of `np.mean(X[labels == cl_idx], axis=0)` at column `j`. -/
def clrCenter (X : Mat) (N : ℕ) (labels : ℕ → ℕ) (cl j : ℕ) : ℚ :=
  ((maskList N labels cl).map fun i => X i j).sum / (maskList N labels cl).length

/-- Scoring step of `clr`: squared residual, plus the spatial-compactness
penalty for non-empty clusters when `kmeans_X > 0`. -/
def clrScores (X : Mat) (y : Vec) (N D : ℕ) (kX : ℚ) (labels : ℕ → ℕ)
    (preds : Mat) : Mat :=
  fun i cl =>
    (y i - preds i cl) ^ 2 +
      (if 0 < kX ∧ maskList N labels cl ≠ [] then
        kX * sumR D fun j => (X i j - clrCenter X N labels cl j) ^ 2
      else 0)

/-- One iteration of the hard-CLR loop: rebuild the models, predict and
score every point under every cluster, then reassign labels. -/
def clrStepFn {σ : Type} (R : Reg σ) (X : Mat) (y : Vec) (N D k : ℕ)
    (kX : ℚ) (constr : Option (ℕ → ℕ)) (junk : ℕ → ℕ) (s : ClrSt σ) :
    ClrSt σ :=
  let m2 := clrModels R X y N s.labels s.models
  let pr : Mat := fun i cl => R.predict (m2 cl) (X i)
  let sc := clrScores X y N D kX s.labels pr
  { labels := reassign_labels N k sc constr junk
    labelsPrev := s.labels
    models := m2
    scores := sc
    preds := pr }

/-- Convergence test of the hard-CLR loop: the embedding of
`np.allclose(labels, labels_prev)` with numpy's default tolerances. -/
def clrConv (N : ℕ) {σ : Type} (s : ClrSt σ) : Bool :=
  npAllcloseLabels N s.labels s.labelsPrev

/-- Pre-loop state of `clr`: initial labels, cloned unfit models, and
the unspecified contents of the `np.empty` score/prediction buffers
(modelled as zeros; every claim runs at least one iteration, which
overwrites them). -/
def clrInit {σ : Type} (R : Reg σ) (labels0 : ℕ → ℕ) : ClrSt σ :=
  { labels := labels0
    labelsPrev := labels0
    models := fun _ => R.init
    scores := fun _ _ => 0
    preds := fun _ _ => 0 }

/-- The hard-CLR loop of `clr`, as a `runLoop` instance. -/
def clrFull {σ : Type} (R : Reg σ) (X : Mat) (y : Vec) (N D k : ℕ)
    (kX : ℚ) (constr : Option (ℕ → ℕ)) (junk : ℕ → ℕ) (max_iter : ℕ)
    (labels0 : ℕ → ℕ) : LoopOut (ClrSt σ) :=
  runLoop (clrStepFn R X y N D k kX constr junk) (clrConv N) max_iter
    ⟨clrInit R labels0, 0, false⟩

/-- The tuple returned by `clr` and by `fuzzy_clr`: labels, models, weight
vector (cluster fractions for `clr`, mixing weights for `fuzzy_clr`), and
the objective value. -/
structure ClrRet (σ : Type) where
  labels : ℕ → ℕ
  models : ℕ → σ
  weights : ℕ → ℚ
  obj : ℚ

/-- Embedding of `clr(X, y, k, ...)`: run the loop, then return final
labels and models, the per-cluster count fractions, and the mean of each
point's score under its assigned label. -/
def clr {σ : Type} (R : Reg σ) (X : Mat) (y : Vec) (N D k : ℕ) (kX : ℚ)
    (constr : Option (ℕ → ℕ)) (junk : ℕ → ℕ) (max_iter : ℕ)
    (labels0 : ℕ → ℕ) : ClrRet σ :=
  let r := clrFull R X y N D k kX constr junk max_iter labels0
  { labels := r.st.labels
    models := r.st.models
    weights := fun cl => ((maskList N r.st.labels cl).length : ℚ) /
      sumR k fun c => ((maskList N r.st.labels c).length : ℚ)
    obj := (sumR N fun i => r.st.scores i (r.st.labels i)) / N }

/-- C2 (amended): the hard-CLR loop stops at its break statement exactly
when the new and previous label vectors satisfy numpy's default
`allclose` comparison, elementwise `|new - prev| ≤ 1e-8 + 1e-5 * |prev|`
(for integer labels this agrees with exact elementwise equality whenever
every label is at most 99999, but not for larger label values), and
otherwise it runs exactly `max_iter` iterations; no other condition stops
the loop early. -/
theorem c2_amended {σ : Type} (R : Reg σ) (X : Mat) (y : Vec) (N D k : ℕ)
    (kX : ℚ) (constr : Option (ℕ → ℕ)) (junk : ℕ → ℕ) (max_iter : ℕ)
    (labels0 : ℕ → ℕ) (hmi : 1 ≤ max_iter) :
    ((clrFull R X y N D k kX constr junk max_iter labels0).early = true ↔
        npAllcloseLabels N
          (clrFull R X y N D k kX constr junk max_iter labels0).st.labels
          (clrFull R X y N D k kX constr junk max_iter labels0).st.labelsPrev
          = true) ∧
    ((clrFull R X y N D k kX constr junk max_iter labels0).early = false →
        (clrFull R X y N D k kX constr junk max_iter labels0).iters = max_iter) ∧
    ((clrFull R X y N D k kX constr junk max_iter labels0).early = true →
        1 ≤ (clrFull R X y N D k kX constr junk max_iter labels0).iters ∧
        (clrFull R X y N D k kX constr junk max_iter labels0).iters ≤ max_iter) := by
  have h := runLoop_spec (clrStepFn R X y N D k kX constr junk) (clrConv N)
    max_iter ⟨clrInit R labels0, 0, false⟩ rfl hmi
  have e : clrFull R X y N D k kX constr junk max_iter labels0
      = runLoop (clrStepFn R X y N D k kX constr junk) (clrConv N) max_iter
          ⟨clrInit R labels0, 0, false⟩ := rfl
  rw [e]
  have e0 : (⟨clrInit R labels0, 0, false⟩ : LoopOut (ClrSt σ)).iters = 0 := rfl
  refine ⟨h.1, fun he => ?_, fun he => ?_⟩
  · have h2 := h.2.1 he; rw [e0] at h2; omega
  · have h2 := h.2.2 he; rw [e0] at h2; omega

/-- The default regressor stand-in used by concrete witnesses: a stateless
model that always predicts 0. -/
def regZero : Reg Unit := ⟨(), fun _ => (), fun _ _ => 0⟩

/-- Witness for the amended C2 at a one-point, one-cluster instance. -/
theorem c2_witness :
    (1 : ℕ) ≤ 1 ∧
      (((clrFull regZero (fun _ _ => 0) (fun _ => 0) 1 1 1 0 none (fun _ => 0) 1
            (fun _ => 0)).early = true ↔
          npAllcloseLabels 1
            (clrFull regZero (fun _ _ => 0) (fun _ => 0) 1 1 1 0 none (fun _ => 0) 1
              (fun _ => 0)).st.labels
            (clrFull regZero (fun _ _ => 0) (fun _ => 0) 1 1 1 0 none (fun _ => 0) 1
              (fun _ => 0)).st.labelsPrev = true) ∧
        ((clrFull regZero (fun _ _ => 0) (fun _ => 0) 1 1 1 0 none (fun _ => 0) 1
            (fun _ => 0)).early = false →
          (clrFull regZero (fun _ _ => 0) (fun _ => 0) 1 1 1 0 none (fun _ => 0) 1
            (fun _ => 0)).iters = 1) ∧
        ((clrFull regZero (fun _ _ => 0) (fun _ => 0) 1 1 1 0 none (fun _ => 0) 1
            (fun _ => 0)).early = true →
          1 ≤ (clrFull regZero (fun _ _ => 0) (fun _ => 0) 1 1 1 0 none (fun _ => 0) 1
              (fun _ => 0)).iters ∧
          (clrFull regZero (fun _ _ => 0) (fun _ => 0) 1 1 1 0 none (fun _ => 0) 1
              (fun _ => 0)).iters ≤ 1)) :=
  ⟨le_refl 1,
    c2_amended regZero (fun _ _ => 0) (fun _ => 0) 1 1 1 0 none (fun _ => 0) 1
      (fun _ => 0) (le_refl 1)⟩

/-- A legal custom regression backend (the `lr` parameter of `clr` accepts
any object with the fit/predict contract): its state stores the first
training sample; an unfit clone predicts the constant 1000; a fit model
predicts its stored target plus 10 on its stored feature row and the bare
stored target elsewhere. -/
def cexReg : Reg (Option (Vec × ℚ)) where
  init := none
  fit := fun data => data.head?
  predict := fun s x =>
    match s with
    | none => 1000
    | some p => if x 0 = p.1 0 then p.2 + 10 else p.2

/-- Concrete features for the C2 counterexample: two one-dimensional
points at 0 and 1. -/
def cexX : Mat := fun i _ => (i : ℚ)

/-- Concrete targets for the C2 counterexample: both zero. -/
def cexY : Vec := fun _ => 0

/-- Concrete initial labels for the C2 counterexample, passed through the
`labels` parameter of `clr`: point 0 starts in cluster 100001 and point 1
in cluster 100000 (of k = 100002 clusters). -/
def cexL0 : ℕ → ℕ := fun i => if i = 0 then 100001 else 100000

/-- State after the first hard-CLR iteration of the C2 counterexample. -/
def cexStep : ClrSt (Option (Vec × ℚ)) :=
  clrStepFn cexReg cexX cexY 2 1 100002 0 none (fun _ => 0)
    (clrInit cexReg cexL0)

/-- The full hard-CLR loop of the C2 counterexample (`max_iter = 5`). -/
def cexRun : LoopOut (ClrSt (Option (Vec × ℚ))) :=
  clrFull cexReg cexX cexY 2 1 100002 0 none (fun _ => 0) 5 cexL0

theorem reassign_labels_none (N k : ℕ) (scores : Mat) (junk : ℕ → ℕ)
    (i : ℕ) :
    reassign_labels N k scores none junk i = argminVec k (scores i) := rfl

theorem clrStepFn_labels {σ : Type} (R : Reg σ) (X : Mat) (y : Vec)
    (N D k : ℕ) (kX : ℚ) (constr : Option (ℕ → ℕ)) (junk : ℕ → ℕ)
    (s : ClrSt σ) :
    (clrStepFn R X y N D k kX constr junk s).labels =
      reassign_labels N k (clrStepFn R X y N D k kX constr junk s).scores
        constr junk := rfl

theorem cex_mask (cl : ℕ) :
    maskList 2 cexL0 cl =
      if cl = 100001 then [0] else if cl = 100000 then [1] else [] := by
  by_cases h1 : cl = 100001
  · subst h1; rfl
  · by_cases h2 : cl = 100000
    · subst h2; rfl
    · rw [if_neg h1, if_neg h2]
      have e0 : decide (cexL0 0 = cl) = false := by
        simp only [show cexL0 0 = 100001 from rfl, decide_eq_false_iff_not]
        omega
      have e1 : decide (cexL0 1 = cl) = false := by
        simp only [show cexL0 1 = 100000 from rfl, decide_eq_false_iff_not]
        omega
      rw [maskList, show List.range 2 = [0, 1] from rfl]
      simp [List.filter, e0, e1]

theorem clrScores_of_kx_nonpos (X : Mat) (y : Vec) (N D : ℕ) (kX : ℚ)
    (labels : ℕ → ℕ) (preds : Mat) (hkX : ¬0 < kX) (i cl : ℕ) :
    clrScores X y N D kX labels preds i cl = (y i - preds i cl) ^ 2 := by
  simp only [clrScores]
  rw [if_neg fun h => hkX h.1, add_zero]

theorem cexStep_scores_pred (i cl : ℕ) :
    cexStep.scores i cl =
      (cexY i - cexReg.predict (clrModels cexReg cexX cexY 2 cexL0
          (fun _ => cexReg.init) cl) (cexX i)) ^ 2 := by
  have h : cexStep.scores i cl = clrScores cexX cexY 2 1 0 cexL0
      (fun i2 cl2 => cexReg.predict (clrModels cexReg cexX cexY 2 cexL0
        (fun _ => cexReg.init) cl2) (cexX i2)) i cl := rfl
  rw [h, clrScores_of_kx_nonpos cexX cexY 2 1 0 cexL0 _ (by norm_num) i cl]

theorem cex_model_other (cl : ℕ) (h1 : cl ≠ 100001) (h2 : cl ≠ 100000) :
    clrModels cexReg cexX cexY 2 cexL0 (fun _ => cexReg.init) cl = none := by
  rw [clrModels, cex_mask cl, if_neg h1, if_neg h2, if_pos rfl]
  rfl

theorem cex_model_a :
    clrModels cexReg cexX cexY 2 cexL0 (fun _ => cexReg.init) 100001
      = some (cexX 0, cexY 0) := by
  rw [clrModels, cex_mask 100001, if_pos rfl]
  rw [if_neg (by simp)]
  rfl

theorem cex_model_b :
    clrModels cexReg cexX cexY 2 cexL0 (fun _ => cexReg.init) 100000
      = some (cexX 1, cexY 1) := by
  rw [clrModels, cex_mask 100000, if_neg (by norm_num), if_pos rfl]
  rw [if_neg (by simp)]
  rfl

theorem cex_scores_other (i cl : ℕ) (h1 : cl ≠ 100001) (h2 : cl ≠ 100000) :
    cexStep.scores i cl = 1000000 := by
  rw [cexStep_scores_pred, cex_model_other cl h1 h2]
  norm_num [cexReg, cexY]

theorem cex_s0_a : cexStep.scores 0 100001 = 100 := by
  rw [cexStep_scores_pred, cex_model_a]
  norm_num [cexReg, cexX, cexY]

theorem cex_s1_a : cexStep.scores 1 100001 = 0 := by
  rw [cexStep_scores_pred, cex_model_a]
  norm_num [cexReg, cexX, cexY]

theorem cex_s0_b : cexStep.scores 0 100000 = 0 := by
  rw [cexStep_scores_pred, cex_model_b]
  norm_num [cexReg, cexX, cexY]

theorem cex_s1_b : cexStep.scores 1 100000 = 100 := by
  rw [cexStep_scores_pred, cex_model_b]
  norm_num [cexReg, cexX, cexY]

theorem cex_labels_eq (i : ℕ) :
    cexStep.labels i = argminVec 100002 (cexStep.scores i) := by
  show (clrStepFn cexReg cexX cexY 2 1 100002 0 none (fun _ => 0)
      (clrInit cexReg cexL0)).labels i = argminVec 100002 (cexStep.scores i)
  rw [clrStepFn_labels, reassign_labels_none]
  rfl

theorem cex_labels0 : cexStep.labels 0 = 100000 := by
  rw [cex_labels_eq]
  apply argminVec_eq_of_uniqueMin (cexStep.scores 0) 100002 100000 (by norm_num)
  intro m _ hne
  rw [cex_s0_b]
  by_cases h1 : m = 100001
  · rw [h1, cex_s0_a]; norm_num
  · rw [cex_scores_other 0 m h1 hne]; norm_num

theorem cex_labels1 : cexStep.labels 1 = 100001 := by
  rw [cex_labels_eq]
  apply argminVec_eq_of_uniqueMin (cexStep.scores 1) 100002 100001 (by norm_num)
  intro m _ hne
  rw [cex_s1_a]
  by_cases h2 : m = 100000
  · rw [h2, cex_s1_b]; norm_num
  · rw [cex_scores_other 1 m hne h2]; norm_num

theorem cex_conv : clrConv 2 cexStep = true := by
  rw [clrConv, npAllcloseLabels, show List.range 2 = [0, 1] from rfl]
  rw [List.all_cons, List.all_cons, List.all_nil]
  rw [show cexStep.labelsPrev = cexL0 from rfl, cex_labels0, cex_labels1]
  rw [show cexL0 0 = 100001 from rfl, show cexL0 1 = 100000 from rfl]
  simp only [Bool.and_eq_true, decide_eq_true_eq, and_true]
  constructor
  · rw [show |((100000 : ℕ) : ℚ) - ((100001 : ℕ) : ℚ)| = 1 by norm_num,
      show |((100001 : ℕ) : ℚ)| = 100001 by norm_num]
    norm_num
  · rw [show |((100001 : ℕ) : ℚ) - ((100000 : ℕ) : ℚ)| = 1 by norm_num,
      show |((100000 : ℕ) : ℚ)| = 100000 by norm_num]
    norm_num

/-- C2 is false as stated: on a legal input (a custom regressor, k =
100002 clusters, supplied initial labels 100001 and 100000 for two
points), the loop stops at its break after the first iteration even
though the new labels (100000, 100001) differ elementwise from the
previous ones — `np.allclose` with its default relative tolerance accepts
labels that differ by 1 once their magnitude reaches 100000. -/
theorem c2_counterexample :
    cexRun.early = true ∧ cexRun.iters = 1 ∧ cexRun.iters < 5 ∧
      cexRun.st.labels 0 ≠ cexRun.st.labelsPrev 0 := by
  have hcc : clrConv 2 (clrStepFn cexReg cexX cexY 2 1 100002 0 none
      (fun _ => 0) (LoopOut.st ⟨clrInit cexReg cexL0, 0, false⟩)) = true :=
    cex_conv
  have hrun : cexRun = ⟨cexStep, 1, true⟩ := by
    show runLoop (clrStepFn cexReg cexX cexY 2 1 100002 0 none (fun _ => 0))
      (clrConv 2) 5 ⟨clrInit cexReg cexL0, 0, false⟩ = ⟨cexStep, 1, true⟩
    rw [show (5 : ℕ) = 4 + 1 from rfl, runLoop_succ, if_pos hcc, hcc]
    rfl
  rw [hrun]
  refine ⟨rfl, rfl, by norm_num, ?_⟩
  show cexStep.labels 0 ≠ cexStep.labelsPrev 0
  rw [cex_labels0, show cexStep.labelsPrev = cexL0 from rfl,
    show cexL0 0 = 100001 from rfl]
  omega

/-- Abstract stand-ins for the real-analytic primitives `np.exp`,
`np.sqrt`, `np.log` and the constant `np.pi` used by `fuzzy_clr`: the
embedding is over exact rationals, so these enter as parameters; order
properties they enjoy over the reals (positivity of `exp`, and of `sqrt`
on the positive inputs the non-degenerate algorithm produces) become
hypotheses of the theorems that need them. -/
structure NumOps where
  rexp : ℚ → ℚ
  rsqrt : ℚ → ℚ
  rlog : ℚ → ℚ
  rpi : ℚ

/-- Mutable state of the fuzzy-CLR loop: the responsibility matrix, its
pre-M-step copy, and the per-cluster statistics of the last M/E step. -/
structure FzSt (σ : Type) where
  q : Mat
  qPrev : Mat
  models : ℕ → σ
  lmbda : ℕ → ℚ
  sigma_sq : ℕ → ℚ
  centers : Mat
  probs : Mat

/-- Weighted fit data of the fuzzy M-step for cluster `c`: every row of
`X` and entry of `y`, scaled by `sqrt(q[:, c])`. -/
def fzFitData (O : NumOps) (X : Mat) (y : Vec) (N : ℕ) (q : Mat) (c : ℕ) :
    List (Vec × ℚ) :=
  (List.range N).map fun i =>
    (fun j => O.rsqrt (q i c) * X i j, O.rsqrt (q i c) * y i)

/-- Embedding of `np.sum(q[:, cl_idx])`. -/
def fzQsum (N : ℕ) (q : Mat) (c : ℕ) : ℚ := sumR N fun i => q i c

/-- M-step model refit via weighted least squares on the rescaled data. -/
def fzModels (O : NumOps) {σ : Type} (R : Reg σ) (X : Mat) (y : Vec)
    (N : ℕ) (q : Mat) (c : ℕ) : σ :=
  R.fit (fzFitData O X y N q c)

/-- M-step cluster center: the q-weighted mean of `X`. -/
def fzCenters (X : Mat) (N : ℕ) (q : Mat) (c j : ℕ) : ℚ :=
  (sumR N fun i => q i c * X i j) / fzQsum N q c

/-- M-step mixing weight: `lmbda[cl_idx] = q_sum / X.shape[0]`. -/
def fzLmbda (N : ℕ) (q : Mat) (c : ℕ) : ℚ := fzQsum N q c / N

/-- M-step residual variance: the q-weighted mean of squared residual
plus `kmeans_X` times squared distance to the center, over `q_sum`. -/
def fzSigma (O : NumOps) {σ : Type} (R : Reg σ) (X : Mat) (y : Vec)
    (N D : ℕ) (kX : ℚ) (q : Mat) (c : ℕ) : ℚ :=
  (sumR N fun i => q i c *
    ((y i - R.predict (fzModels O R X y N q c) (X i)) ^ 2 +
      kX * sumR D fun j => (X i j - fzCenters X N q c j) ^ 2)) / fzQsum N q c

/-- E-step Gaussian likelihood term `probs[:, cl_idx]`. -/
def fzProbs (O : NumOps) {σ : Type} (R : Reg σ) (X : Mat) (y : Vec)
    (N D : ℕ) (kX : ℚ) (q : Mat) (i c : ℕ) : ℚ :=
  O.rexp ((-(y i - R.predict (fzModels O R X y N q c) (X i)) ^ 2 -
      kX * sumR D fun j => (X i j - fzCenters X N q c j) ^ 2) /
    (2 * fzSigma O R X y N D kX q c)) /
  O.rsqrt (O.rpi * 2 * fzSigma O R X y N D kX q c)

/-- One fuzzy-CLR iteration: M-step statistics from the current `q`,
then the E-step with row normalization, keeping the pre-M-step `q`. -/
def fzStepFn (O : NumOps) {σ : Type} (R : Reg σ) (X : Mat) (y : Vec)
    (N D k : ℕ) (kX : ℚ) (s : FzSt σ) : FzSt σ :=
  let qU : Mat := fun i c => fzLmbda N s.q c * fzProbs O R X y N D kX s.q i c
  { q := fun i c => qU i c / sumR k fun c2 => qU i c2
    qPrev := s.q
    models := fun c => fzModels O R X y N s.q c
    lmbda := fun c => fzLmbda N s.q c
    sigma_sq := fun c => fzSigma O R X y N D kX s.q c
    centers := fun c j => fzCenters X N s.q c j
    probs := fun i c => fzProbs O R X y N D kX s.q i c }

/-- Convergence test of the fuzzy loop: the embedding of
`np.allclose(q_prev, q, atol=1e-5)` — note numpy's default relative
tolerance `rtol=1e-5` is still in force. -/
def fzConv (N k : ℕ) {σ : Type} (s : FzSt σ) : Bool :=
  npAllcloseMat N k (1 / 100000) (1 / 100000) s.qPrev s.q

/-- Row normalization of the random initial responsibilities. -/
def fzInitQ (k : ℕ) (q0 : Mat) : Mat := fun i c => q0 i c / sumR k (q0 i)

/-- Pre-loop fuzzy state: `q0` models the `np.random.rand` draw; the
`np.empty` statistics buffers are modelled as zeros (every claim runs at
least one iteration, which overwrites them). -/
def fzInit {σ : Type} (R : Reg σ) (k : ℕ) (q0 : Mat) : FzSt σ :=
  { q := fzInitQ k q0
    qPrev := fzInitQ k q0
    models := fun _ => R.init
    lmbda := fun _ => 0
    sigma_sq := fun _ => 0
    centers := fun _ _ => 0
    probs := fun _ _ => 0 }

/-- The fuzzy-CLR loop of `fuzzy_clr`, as a `runLoop` instance. -/
def fzFull (O : NumOps) {σ : Type} (R : Reg σ) (X : Mat) (y : Vec)
    (N D k : ℕ) (kX : ℚ) (max_iter : ℕ) (q0 : Mat) : LoopOut (FzSt σ) :=
  runLoop (fzStepFn O R X y N D k kX) (fzConv N k) max_iter
    ⟨fzInit R k q0, 0, false⟩

/-- The negative log-likelihood
`-np.sum(np.log(np.sum(lmbda * probs, axis=1)))`. -/
def negLogLike (O : NumOps) (N k : ℕ) (lm : ℕ → ℚ) (pr : Mat) : ℚ :=
  -(sumR N fun i => O.rlog (sumR k fun c => lm c * pr i c))

/-- Embedding of `fuzzy_clr(X, y, k, ...)`: run the loop, derive hard
labels by row argmax of the final `q`, refit non-empty clusters on their
hard points, and return the final mixing weights and the negative
log-likelihood of the pre-break state. -/
def fuzzy_clr (O : NumOps) {σ : Type} (R : Reg σ) (X : Mat) (y : Vec)
    (N D k : ℕ) (kX : ℚ) (max_iter : ℕ) (q0 : Mat) : ClrRet σ :=
  let r := fzFull O R X y N D k kX max_iter q0
  let labels := fun i => argmaxVec k (r.st.q i)
  { labels := labels
    models := fun c =>
      if maskList N labels c = [] then r.st.models c
      else R.fit ((maskList N labels c).map fun i => (X i, y i))
    weights := r.st.lmbda
    obj := negLogLike O N k r.st.lmbda r.st.probs }

/-- C3 (amended): the fuzzy-CLR loop stops at its break statement exactly
when the post-E-step `q` and the pre-M-step `q` of the same iteration
satisfy `np.allclose(q_prev, q, atol=1e-5)` — a comparison that keeps
numpy's default relative tolerance `rtol=1e-5`, i.e. elementwise
`|q_prev - q| ≤ 1e-5 + 1e-5 * |q|`, not an absolute-tolerance-only
comparison — and otherwise it runs exactly `max_iter` iterations. -/
theorem c3_amended (O : NumOps) {σ : Type} (R : Reg σ) (X : Mat) (y : Vec)
    (N D k : ℕ) (kX : ℚ) (max_iter : ℕ) (q0 : Mat) (hmi : 1 ≤ max_iter) :
    ((fzFull O R X y N D k kX max_iter q0).early = true ↔
        npAllcloseMat N k (1 / 100000) (1 / 100000)
          (fzFull O R X y N D k kX max_iter q0).st.qPrev
          (fzFull O R X y N D k kX max_iter q0).st.q = true) ∧
    ((fzFull O R X y N D k kX max_iter q0).early = false →
        (fzFull O R X y N D k kX max_iter q0).iters = max_iter) ∧
    ((fzFull O R X y N D k kX max_iter q0).early = true →
        1 ≤ (fzFull O R X y N D k kX max_iter q0).iters ∧
        (fzFull O R X y N D k kX max_iter q0).iters ≤ max_iter) := by
  have h := runLoop_spec (fzStepFn O R X y N D k kX) (fzConv N k)
    max_iter ⟨fzInit R k q0, 0, false⟩ rfl hmi
  have e : fzFull O R X y N D k kX max_iter q0
      = runLoop (fzStepFn O R X y N D k kX) (fzConv N k) max_iter
          ⟨fzInit R k q0, 0, false⟩ := rfl
  rw [e]
  have e0 : (⟨fzInit R k q0, 0, false⟩ : LoopOut (FzSt σ)).iters = 0 := rfl
  refine ⟨h.1, fun he => ?_, fun he => ?_⟩
  · have h2 := h.2.1 he; rw [e0] at h2; omega
  · have h2 := h.2.2 he; rw [e0] at h2; omega

/-- Trivial numeric stand-ins used by concrete witnesses. -/
def numOne : NumOps := ⟨fun _ => 1, fun _ => 1, fun t => t, 3⟩

/-- Witness for the amended C3 at a one-point, one-cluster instance. -/
theorem c3_witness :
    (1 : ℕ) ≤ 1 ∧
      (((fzFull numOne regZero (fun _ _ => 0) (fun _ => 0) 1 1 1 0 1
            (fun _ _ => 1)).early = true ↔
          npAllcloseMat 1 1 (1 / 100000) (1 / 100000)
            (fzFull numOne regZero (fun _ _ => 0) (fun _ => 0) 1 1 1 0 1
              (fun _ _ => 1)).st.qPrev
            (fzFull numOne regZero (fun _ _ => 0) (fun _ => 0) 1 1 1 0 1
              (fun _ _ => 1)).st.q = true) ∧
        ((fzFull numOne regZero (fun _ _ => 0) (fun _ => 0) 1 1 1 0 1
            (fun _ _ => 1)).early = false →
          (fzFull numOne regZero (fun _ _ => 0) (fun _ => 0) 1 1 1 0 1
            (fun _ _ => 1)).iters = 1) ∧
        ((fzFull numOne regZero (fun _ _ => 0) (fun _ => 0) 1 1 1 0 1
            (fun _ _ => 1)).early = true →
          1 ≤ (fzFull numOne regZero (fun _ _ => 0) (fun _ => 0) 1 1 1 0 1
              (fun _ _ => 1)).iters ∧
          (fzFull numOne regZero (fun _ _ => 0) (fun _ => 0) 1 1 1 0 1
              (fun _ _ => 1)).iters ≤ 1)) :=
  ⟨le_refl 1,
    c3_amended numOne regZero (fun _ _ => 0) (fun _ => 0) 1 1 1 0 1
      (fun _ _ => 1) (le_refl 1)⟩

/-- A custom regression backend (the `lr` parameter accepts any object
with the fit/predict contract): its state is the sum of the targets it
was fit on, and it predicts that constant.  Used only by the concrete
illustration inside C10. -/
def fcReg : Reg ℚ := ⟨0, fun data => (data.map Prod.snd).sum, fun s _ => s⟩

/-- An arbitrary concrete choice of the abstract numeric stand-ins, used
only by the concrete illustration inside C10 (whose load-bearing
statements are proven for every `NumOps`, this one included). -/
def fcOps : NumOps :=
  { rexp := fun _ => 1
    rsqrt := fun t =>
      if t = 24 / 25 then 299991 / 300006 else if t = 54 / 25 then 1 else t
    rlog := fun t => t
    rpi := 3 }

/-- Features for the concrete fuzzy runs: every entry 1. -/
def fcX : Mat := fun _ _ => 1

/-- Targets for the concrete fuzzy runs: every entry 1. -/
def fcY : Vec := fun _ => 1

/-- Initial responsibilities for C10's concrete illustration (already
summing to 1 per row): 3/5 and 2/5 over k = 2 clusters. -/
def fcQ0 : Mat := fun _ c => if c = 0 then 3 / 5 else 2 / 5

/-- State after the first fuzzy-CLR iteration of C10's concrete run. -/
def fcS1 : FzSt ℚ := fzStepFn fcOps fcReg fcX fcY 1 1 2 0 (fzInit fcReg 2 fcQ0)

/-- The full fuzzy-CLR loop of C10's concrete run (`max_iter = 5`). -/
def fcRun : LoopOut (FzSt ℚ) := fzFull fcOps fcReg fcX fcY 1 1 2 0 5 fcQ0

theorem fzStepFn_q (O : NumOps) {σ : Type} (R : Reg σ) (X : Mat) (y : Vec)
    (N D k : ℕ) (kX : ℚ) (s : FzSt σ) :
    (fzStepFn O R X y N D k kX s).q = fun i c =>
      fzLmbda N s.q c * fzProbs O R X y N D kX s.q i c /
        sumR k fun c2 => fzLmbda N s.q c2 * fzProbs O R X y N D kX s.q i c2 := rfl

theorem fzStepFn_qPrev (O : NumOps) {σ : Type} (R : Reg σ) (X : Mat)
    (y : Vec) (N D k : ℕ) (kX : ℚ) (s : FzSt σ) :
    (fzStepFn O R X y N D k kX s).qPrev = s.q := rfl

theorem fzStepFn_lmbda (O : NumOps) {σ : Type} (R : Reg σ) (X : Mat)
    (y : Vec) (N D k : ℕ) (kX : ℚ) (s : FzSt σ) :
    (fzStepFn O R X y N D k kX s).lmbda = fun c => fzLmbda N s.q c := rfl

theorem fzStepFn_probs (O : NumOps) {σ : Type} (R : Reg σ) (X : Mat)
    (y : Vec) (N D k : ℕ) (kX : ℚ) (s : FzSt σ) :
    (fzStepFn O R X y N D k kX s).probs
      = fun i c => fzProbs O R X y N D kX s.q i c := rfl

theorem fc_q00 : fzInitQ 2 fcQ0 0 0 = 3 / 5 := by
  norm_num [fzInitQ, fcQ0, sumR, Finset.sum_range_succ, Finset.sum_range_one]

theorem fc_q01 : fzInitQ 2 fcQ0 0 1 = 2 / 5 := by
  norm_num [fzInitQ, fcQ0, sumR, Finset.sum_range_succ, Finset.sum_range_one]

theorem fcReg_predict (s : ℚ) (x : Vec) : fcReg.predict s x = s := rfl

theorem fc_m0 : fzModels fcOps fcReg fcX fcY 1 (fzInitQ 2 fcQ0) 0 = 3 / 5 := by
  have e : fzModels fcOps fcReg fcX fcY 1 (fzInitQ 2 fcQ0) 0
      = fcOps.rsqrt (fzInitQ 2 fcQ0 0 0) * fcY 0 := by
    simp [fzModels, fcReg, fzFitData, show List.range 1 = [0] from rfl]
  rw [e, fc_q00]
  norm_num [fcOps, fcY]

theorem fc_m1 : fzModels fcOps fcReg fcX fcY 1 (fzInitQ 2 fcQ0) 1 = 2 / 5 := by
  have e : fzModels fcOps fcReg fcX fcY 1 (fzInitQ 2 fcQ0) 1
      = fcOps.rsqrt (fzInitQ 2 fcQ0 0 1) * fcY 0 := by
    simp [fzModels, fcReg, fzFitData, show List.range 1 = [0] from rfl]
  rw [e, fc_q01]
  norm_num [fcOps, fcY]

theorem fc_sg0 : fzSigma fcOps fcReg fcX fcY 1 1 0 (fzInitQ 2 fcQ0) 0
    = 4 / 25 := by
  simp only [fzSigma, fzQsum, sumR, Finset.sum_range_one, fcReg_predict,
    fc_m0, zero_mul, add_zero, fc_q00]
  norm_num [fcY]

theorem fc_sg1 : fzSigma fcOps fcReg fcX fcY 1 1 0 (fzInitQ 2 fcQ0) 1
    = 9 / 25 := by
  simp only [fzSigma, fzQsum, sumR, Finset.sum_range_one, fcReg_predict,
    fc_m1, zero_mul, add_zero, fc_q01]
  norm_num [fcY]

theorem fc_pb0 : fzProbs fcOps fcReg fcX fcY 1 1 0 (fzInitQ 2 fcQ0) 0 0
    = 300006 / 299991 := by
  rw [fzProbs, fc_sg0]
  norm_num [fcOps]

theorem fc_pb1 : fzProbs fcOps fcReg fcX fcY 1 1 0 (fzInitQ 2 fcQ0) 0 1
    = 1 := by
  rw [fzProbs, fc_sg1]
  norm_num [fcOps]

theorem fc_lm0 : fzLmbda 1 (fzInitQ 2 fcQ0) 0 = 3 / 5 := by
  simp only [fzLmbda, fzQsum, sumR, Finset.sum_range_one, fc_q00]
  norm_num

theorem fc_lm1 : fzLmbda 1 (fzInitQ 2 fcQ0) 1 = 2 / 5 := by
  simp only [fzLmbda, fzQsum, sumR, Finset.sum_range_one, fc_q01]
  norm_num

theorem fc_qn0 : fcS1.q 0 0 = 150003 / 250000 := by
  have e : fcS1.q 0 0 =
      fzLmbda 1 (fzInitQ 2 fcQ0) 0 *
          fzProbs fcOps fcReg fcX fcY 1 1 0 (fzInitQ 2 fcQ0) 0 0 /
        sumR 2 (fun c2 => fzLmbda 1 (fzInitQ 2 fcQ0) c2 *
          fzProbs fcOps fcReg fcX fcY 1 1 0 (fzInitQ 2 fcQ0) 0 c2) := rfl
  rw [e]
  simp only [sumR, Finset.sum_range_succ, Finset.sum_range_one]
  rw [fc_lm0, fc_lm1, fc_pb0, fc_pb1]
  norm_num

theorem fc_qn1 : fcS1.q 0 1 = 99997 / 250000 := by
  have e : fcS1.q 0 1 =
      fzLmbda 1 (fzInitQ 2 fcQ0) 1 *
          fzProbs fcOps fcReg fcX fcY 1 1 0 (fzInitQ 2 fcQ0) 0 1 /
        sumR 2 (fun c2 => fzLmbda 1 (fzInitQ 2 fcQ0) c2 *
          fzProbs fcOps fcReg fcX fcY 1 1 0 (fzInitQ 2 fcQ0) 0 c2) := rfl
  rw [e]
  simp only [sumR, Finset.sum_range_succ, Finset.sum_range_one]
  rw [fc_lm0, fc_lm1, fc_pb0, fc_pb1]
  norm_num

theorem fc_conv : fzConv 1 2 fcS1 = true := by
  rw [fzConv, npAllcloseMat, show List.range 1 = [0] from rfl,
    show List.range 2 = [0, 1] from rfl]
  simp only [List.all_cons, List.all_nil, Bool.and_true, Bool.and_eq_true,
    decide_eq_true_eq]
  constructor
  · rw [show fcS1.qPrev = fzInitQ 2 fcQ0 from rfl, fc_q00, fc_qn0]
    rw [show (3 : ℚ) / 5 - 150003 / 250000 = -(3 / 250000) by norm_num,
      abs_neg, abs_of_nonneg (by norm_num : (0 : ℚ) ≤ 3 / 250000),
      abs_of_nonneg (by norm_num : (0 : ℚ) ≤ (150003 : ℚ) / 250000)]
    norm_num
  · rw [show fcS1.qPrev = fzInitQ 2 fcQ0 from rfl, fc_q01, fc_qn1]
    rw [show (2 : ℚ) / 5 - 99997 / 250000 = 3 / 250000 by norm_num,
      abs_of_nonneg (by norm_num : (0 : ℚ) ≤ 3 / 250000),
      abs_of_nonneg (by norm_num : (0 : ℚ) ≤ (99997 : ℚ) / 250000)]
    norm_num

theorem fc_run_eq : fcRun = ⟨fcS1, 1, true⟩ := by
  have hcc : fzConv 1 2 (fzStepFn fcOps fcReg fcX fcY 1 1 2 0
      (LoopOut.st ⟨fzInit fcReg 2 fcQ0, 0, false⟩)) = true := fc_conv
  show runLoop (fzStepFn fcOps fcReg fcX fcY 1 1 2 0) (fzConv 1 2) 5
    ⟨fzInit fcReg 2 fcQ0, 0, false⟩ = ⟨fcS1, 1, true⟩
  rw [show (5 : ℕ) = 4 + 1 from rfl, runLoop_succ, if_pos hcc, hcc]
  rfl

theorem regZero_predict (u : Unit) (x : Vec) : regZero.predict u x = 0 := rfl

/-- Initial responsibilities of the C3 counterexample, a legal
`np.random.rand` draw whose rows already sum to 1: point 0 gets
`(1/2 + 1.2e-5, 1/2 - 1.2e-5)` and point 1 the mirror image, so both
column sums are exactly 1 and `lmbda = (1/2, 1/2)`. -/
def fc2Q0 : Mat := fun i c =>
  if i = c then 1 / 2 + 3 / 250000 else 1 / 2 - 3 / 250000

/-- State after the first fuzzy-CLR iteration of the C3 counterexample,
parameterized over the numeric stand-ins: the run's behaviour is proven
below for every choice with nonzero Gaussian factor, so in particular
for the values the real `np.exp`, `np.sqrt` and `np.pi` take. -/
def fc2S1 (O : NumOps) : FzSt Unit :=
  fzStepFn O regZero fcX fcY 2 1 2 0 (fzInit regZero 2 fc2Q0)

/-- The full fuzzy-CLR loop of the C3 counterexample (`max_iter = 5`). -/
def fc2Run (O : NumOps) : LoopOut (FzSt Unit) :=
  fzFull O regZero fcX fcY 2 1 2 0 5 fc2Q0

theorem fc2_initq (i c : ℕ) (hi : i < 2) :
    fzInitQ 2 fc2Q0 i c = fc2Q0 i c := by
  show fc2Q0 i c / sumR 2 (fc2Q0 i) = fc2Q0 i c
  have hs : sumR 2 (fc2Q0 i) = 1 := by
    interval_cases i <;>
      norm_num [sumR, Finset.sum_range_succ, Finset.sum_range_zero, fc2Q0]
  rw [hs, div_one]

theorem fc2_qsum (c : ℕ) (hc : c < 2) :
    fzQsum 2 (fzInitQ 2 fc2Q0) c = 1 := by
  rw [fzQsum]
  simp only [sumR, Finset.sum_range_succ, Finset.sum_range_zero]
  rw [fc2_initq 0 c (by norm_num), fc2_initq 1 c (by norm_num)]
  interval_cases c <;> norm_num [fc2Q0]

theorem fc2_lm (c : ℕ) (hc : c < 2) :
    fzLmbda 2 (fzInitQ 2 fc2Q0) c = 1 / 2 := by
  rw [fzLmbda, fc2_qsum c hc]
  norm_num

theorem fc2_sigma (O : NumOps) (c : ℕ) (hc : c < 2) :
    fzSigma O regZero fcX fcY 2 1 0 (fzInitQ 2 fc2Q0) c = 1 := by
  rw [fzSigma, fc2_qsum c hc, div_one]
  simp only [sumR, Finset.sum_range_succ, Finset.sum_range_zero,
    regZero_predict]
  rw [fc2_initq 0 c (by norm_num), fc2_initq 1 c (by norm_num)]
  interval_cases c <;> norm_num [fc2Q0, fcY]

theorem fc2_probs (O : NumOps) (i c : ℕ) (hc : c < 2) :
    fzProbs O regZero fcX fcY 2 1 0 (fzInitQ 2 fc2Q0) i c
      = O.rexp (-(1 : ℚ) / 2) / O.rsqrt (O.rpi * 2) := by
  rw [fzProbs, fc2_sigma O c hc, regZero_predict]
  congr 1
  · exact congrArg O.rexp (by norm_num [fcY])
  · exact congrArg O.rsqrt (by ring)

theorem fc2_qn (O : NumOps)
    (hP : O.rexp (-(1 : ℚ) / 2) / O.rsqrt (O.rpi * 2) ≠ 0) (i c : ℕ)
    (hc : c < 2) : (fc2S1 O).q i c = 1 / 2 := by
  have e : (fc2S1 O).q i c =
      fzLmbda 2 (fzInitQ 2 fc2Q0) c *
          fzProbs O regZero fcX fcY 2 1 0 (fzInitQ 2 fc2Q0) i c /
        sumR 2 (fun c2 => fzLmbda 2 (fzInitQ 2 fc2Q0) c2 *
          fzProbs O regZero fcX fcY 2 1 0 (fzInitQ 2 fc2Q0) i c2) := rfl
  rw [e]
  simp only [sumR, Finset.sum_range_succ, Finset.sum_range_zero]
  rw [fc2_probs O i 0 (by norm_num), fc2_probs O i 1 (by norm_num),
    fc2_probs O i c hc, fc2_lm 0 (by norm_num), fc2_lm 1 (by norm_num),
    fc2_lm c hc]
  set P : ℚ := O.rexp (-(1 : ℚ) / 2) / O.rsqrt (O.rpi * 2) with hPdef
  rw [show (0 + 1 / 2 * P + 1 / 2 * P : ℚ) = P by ring, mul_div_assoc,
    div_self hP, mul_one]

theorem fc2_conv (O : NumOps)
    (hP : O.rexp (-(1 : ℚ) / 2) / O.rsqrt (O.rpi * 2) ≠ 0) :
    fzConv 2 2 (fc2S1 O) = true := by
  have hqp : (fc2S1 O).qPrev = fzInitQ 2 fc2Q0 := rfl
  rw [fzConv, npAllcloseMat, show List.range 2 = [0, 1] from rfl]
  simp only [List.all_cons, List.all_nil, Bool.and_true, Bool.and_eq_true,
    decide_eq_true_eq]
  refine ⟨⟨?_, ?_⟩, ?_, ?_⟩
  · rw [hqp, fc2_qn O hP 0 0 (by norm_num), fc2_initq 0 0 (by norm_num),
      show fc2Q0 0 0 = 1 / 2 + 3 / 250000 from rfl,
      show (1 / 2 + 3 / 250000 : ℚ) - 1 / 2 = 3 / 250000 by norm_num,
      abs_of_nonneg (by norm_num : (0 : ℚ) ≤ 3 / 250000),
      abs_of_nonneg (by norm_num : (0 : ℚ) ≤ (1 : ℚ) / 2)]
    norm_num
  · rw [hqp, fc2_qn O hP 0 1 (by norm_num), fc2_initq 0 1 (by norm_num),
      show fc2Q0 0 1 = 1 / 2 - 3 / 250000 from rfl,
      show (1 / 2 - 3 / 250000 : ℚ) - 1 / 2 = -(3 / 250000) by norm_num,
      abs_neg, abs_of_nonneg (by norm_num : (0 : ℚ) ≤ 3 / 250000),
      abs_of_nonneg (by norm_num : (0 : ℚ) ≤ (1 : ℚ) / 2)]
    norm_num
  · rw [hqp, fc2_qn O hP 1 0 (by norm_num), fc2_initq 1 0 (by norm_num),
      show fc2Q0 1 0 = 1 / 2 - 3 / 250000 from rfl,
      show (1 / 2 - 3 / 250000 : ℚ) - 1 / 2 = -(3 / 250000) by norm_num,
      abs_neg, abs_of_nonneg (by norm_num : (0 : ℚ) ≤ 3 / 250000),
      abs_of_nonneg (by norm_num : (0 : ℚ) ≤ (1 : ℚ) / 2)]
    norm_num
  · rw [hqp, fc2_qn O hP 1 1 (by norm_num), fc2_initq 1 1 (by norm_num),
      show fc2Q0 1 1 = 1 / 2 + 3 / 250000 from rfl,
      show (1 / 2 + 3 / 250000 : ℚ) - 1 / 2 = 3 / 250000 by norm_num,
      abs_of_nonneg (by norm_num : (0 : ℚ) ≤ 3 / 250000),
      abs_of_nonneg (by norm_num : (0 : ℚ) ≤ (1 : ℚ) / 2)]
    norm_num

/-- For every choice of the numeric stand-ins with nonzero Gaussian
factor — in particular the values of the real `np.exp`, `np.sqrt`,
`np.pi` — the C3 counterexample run breaks at its first iteration. -/
theorem fc2_run_eq (O : NumOps)
    (hP : O.rexp (-(1 : ℚ) / 2) / O.rsqrt (O.rpi * 2) ≠ 0) :
    fc2Run O = ⟨fc2S1 O, 1, true⟩ := by
  have hcc : fzConv 2 2 (fzStepFn O regZero fcX fcY 2 1 2 0
      (LoopOut.st ⟨fzInit regZero 2 fc2Q0, 0, false⟩)) = true := fc2_conv O hP
  show runLoop (fzStepFn O regZero fcX fcY 2 1 2 0) (fzConv 2 2) 5
    ⟨fzInit regZero 2 fc2Q0, 0, false⟩ = ⟨fc2S1 O, 1, true⟩
  rw [show (5 : ℕ) = 4 + 1 from rfl, runLoop_succ, if_pos hcc, hcc]
  rfl

/-- C3 is false as stated.  Hand-trace of the real program at this input
(2 points with X = [[1],[1]], y = [1,1], k = 2, `max_iter = 5`, a legal
custom regressor whose `fit` is a no-op and whose `predict` returns
zeros, and the random draw `fc2Q0`): both clusters fit the same zero
predictor, so every residual is 1 and, with both column sums of q equal
to 1, both variances are exactly 1; the E-step then multiplies each
column by the same scalar `exp(-1/2)/sqrt(2*pi)`, which cancels in the
row normalization, so `q` becomes exactly 1/2 everywhere — independent
of the values of `exp`, `sqrt` and `pi` (`fc2_run_eq` proves the run for
every such stand-in, and this theorem instantiates it).  Every entry of
`q` therefore moves by exactly 1.2e-5 > 1e-5, yet
`np.allclose(q_prev, q, atol=1e-5)` accepts it (1.2e-5 ≤ 1e-5 +
1e-5·0.5) and the loop breaks after the first of five iterations —
contradicting the claim that early termination happens exactly under the
absolute-tolerance-only comparison. -/
theorem c3_counterexample :
    (fc2Run numOne).early = true ∧ (fc2Run numOne).iters = 1 ∧
      (fc2Run numOne).iters < 5 ∧
      npAllcloseMat 2 2 0 (1 / 100000) (fc2Run numOne).st.qPrev
        (fc2Run numOne).st.q = false := by
  have hP : numOne.rexp (-(1 : ℚ) / 2) / numOne.rsqrt (numOne.rpi * 2) ≠ 0 := by
    norm_num [numOne]
  rw [fc2_run_eq numOne hP]
  refine ⟨rfl, rfl, by norm_num, ?_⟩
  show npAllcloseMat 2 2 0 (1 / 100000) (fc2S1 numOne).qPrev
    (fc2S1 numOne).q = false
  have h0 : ¬(|(fc2S1 numOne).qPrev 0 0 - (fc2S1 numOne).q 0 0|
      ≤ 1 / 100000 + 0 * |(fc2S1 numOne).q 0 0|) := by
    rw [show (fc2S1 numOne).qPrev = fzInitQ 2 fc2Q0 from rfl,
      fc2_qn numOne hP 0 0 (by norm_num), fc2_initq 0 0 (by norm_num),
      show fc2Q0 0 0 = 1 / 2 + 3 / 250000 from rfl,
      show (1 / 2 + 3 / 250000 : ℚ) - 1 / 2 = 3 / 250000 by norm_num,
      abs_of_nonneg (by norm_num : (0 : ℚ) ≤ 3 / 250000)]
    norm_num
  rw [npAllcloseMat, show List.range 2 = [0, 1] from rfl]
  simp only [List.all_cons, List.all_nil]
  rw [decide_eq_false h0]
  simp

/-- The q-matrix invariant of C5: entries non-negative and rows summing
to 1 (exactly, in the rational embedding). -/
def qRowsNormalized (N k : ℕ) (q : Mat) : Prop :=
  (∀ i < N, ∀ c < k, 0 ≤ q i c) ∧ ∀ i < N, sumR k (q i) = 1

theorem sumR_nonneg {n : ℕ} {f : ℕ → ℚ} (h : ∀ i < n, 0 ≤ f i) :
    0 ≤ sumR n f :=
  Finset.sum_nonneg fun i hi => h i (Finset.mem_range.mp hi)

theorem sumR_pos_of_exists {n : ℕ} {f : ℕ → ℚ} (h0 : ∀ i < n, 0 ≤ f i)
    (h1 : ∃ i, i < n ∧ 0 < f i) : 0 < sumR n f := by
  obtain ⟨i, hi, hp⟩ := h1
  exact Finset.sum_pos' (fun j hj => h0 j (Finset.mem_range.mp hj))
    ⟨i, Finset.mem_range.mpr hi, hp⟩

theorem exists_pos_of_sumR_pos {n : ℕ} {f : ℕ → ℚ} (h : 0 < sumR n f) :
    ∃ i, i < n ∧ 0 < f i := by
  by_contra hc
  push_neg at hc
  have h2 : sumR n f ≤ 0 :=
    Finset.sum_nonpos fun i hi => hc i (Finset.mem_range.mp hi)
  linarith

theorem fzInitQ_normalized (N k : ℕ) (q0 : Mat)
    (h0 : ∀ i < N, ∀ c < k, 0 ≤ q0 i c) (hs : ∀ i < N, 0 < sumR k (q0 i)) :
    qRowsNormalized N k (fzInitQ k q0) := by
  constructor
  · intro i hi c hc
    exact div_nonneg (h0 i hi c hc) (le_of_lt (hs i hi))
  · intro i hi
    show sumR k (fun c => q0 i c / sumR k (q0 i)) = 1
    simp only [sumR]
    rw [← Finset.sum_div]
    exact div_self (ne_of_gt (hs i hi))

theorem fzLmbda_rowsum (N k : ℕ) (q : Mat) (hN : 0 < N)
    (h : ∀ i < N, sumR k (q i) = 1) : sumR k (fzLmbda N q) = 1 := by
  have e1 : fzLmbda N q = fun c => (sumR N fun i => q i c) / (N : ℚ) := rfl
  rw [e1]
  show sumR k (fun c => (sumR N fun i => q i c) / (N : ℚ)) = 1
  simp only [sumR]
  rw [← Finset.sum_div, Finset.sum_comm]
  have e2 : ∑ i ∈ Finset.range N, ∑ c ∈ Finset.range k, q i c = (N : ℚ) := by
    have e3 : ∀ i ∈ Finset.range N, ∑ c ∈ Finset.range k, q i c = 1 := by
      intro i hi
      exact h i (Finset.mem_range.mp hi)
    rw [Finset.sum_congr rfl e3]
    simp
  rw [e2]
  exact div_self (Nat.cast_ne_zero.mpr (by omega))

theorem fzStep_preserves (O : NumOps) {σ : Type} (R : Reg σ) (X : Mat)
    (y : Vec) (N D k : ℕ) (kX : ℚ)
    (hexp : ∀ t, 0 < O.rexp t) (hsqrt : ∀ t, 0 < O.rsqrt t)
    (s : FzSt σ) (h : qRowsNormalized N k s.q) :
    qRowsNormalized N k (fzStepFn O R X y N D k kX s).q := by
  rw [fzStepFn_q]
  have hpr : ∀ i c, 0 < fzProbs O R X y N D kX s.q i c := fun i c =>
    div_pos (hexp _) (hsqrt _)
  have hlm : ∀ c < k, 0 ≤ fzLmbda N s.q c := by
    intro c hc
    apply div_nonneg _ (Nat.cast_nonneg N)
    exact sumR_nonneg fun i hi => h.1 i hi c hc
  have hterm : ∀ i, ∀ c < k,
      0 ≤ fzLmbda N s.q c * fzProbs O R X y N D kX s.q i c := by
    intro i c hc
    exact mul_nonneg (hlm c hc) (le_of_lt (hpr i c))
  have hS : ∀ i < N, 0 < sumR k fun c2 =>
      fzLmbda N s.q c2 * fzProbs O R X y N D kX s.q i c2 := by
    intro i hi
    have hN : 0 < N := by omega
    have hsum1 : sumR k (fzLmbda N s.q) = 1 := fzLmbda_rowsum N k s.q hN h.2
    obtain ⟨c0, hc0, hp0⟩ := exists_pos_of_sumR_pos (n := k)
      (f := fzLmbda N s.q) (by rw [hsum1]; norm_num)
    exact sumR_pos_of_exists (fun c hc => hterm i c hc)
      ⟨c0, hc0, mul_pos hp0 (hpr i c0)⟩
  constructor
  · intro i hi c hc
    exact div_nonneg (hterm i c hc) (le_of_lt (hS i hi))
  · intro i hi
    show sumR k (fun c =>
      fzLmbda N s.q c * fzProbs O R X y N D kX s.q i c /
        sumR k fun c2 => fzLmbda N s.q c2 * fzProbs O R X y N D kX s.q i c2) = 1
    simp only [sumR]
    rw [← Finset.sum_div]
    exact div_self (ne_of_gt (by have := hS i hi; simpa [sumR] using this))

/-- C5: in `fuzzy_clr` the responsibility matrix has non-negative entries
and rows summing to 1 (exactly, in the rational embedding — hence within
floating tolerance) after initialization, after the E-step of every
iteration (the second conjunct is the inductive preservation statement
for an arbitrary loop state), and at loop exit.  The hypotheses state the
positivity the real `exp` and `sqrt` enjoy on the non-degenerate inputs
the algorithm produces, and that the random initial draw is non-negative
with positive row sums. -/
theorem c5_q_invariant (O : NumOps) {σ : Type} (R : Reg σ) (X : Mat)
    (y : Vec) (N D k : ℕ) (kX : ℚ) (max_iter : ℕ) (q0 : Mat)
    (hexp : ∀ t, 0 < O.rexp t) (hsqrt : ∀ t, 0 < O.rsqrt t)
    (h0 : ∀ i < N, ∀ c < k, 0 ≤ q0 i c)
    (hs : ∀ i < N, 0 < sumR k (q0 i)) :
    qRowsNormalized N k (fzInit (σ := σ) R k q0).q ∧
    (∀ s : FzSt σ, qRowsNormalized N k s.q →
        qRowsNormalized N k (fzStepFn O R X y N D k kX s).q) ∧
    qRowsNormalized N k (fzFull O R X y N D k kX max_iter q0).st.q := by
  have hinit : qRowsNormalized N k (fzInit (σ := σ) R k q0).q :=
    fzInitQ_normalized N k q0 h0 hs
  have hstep : ∀ s : FzSt σ, qRowsNormalized N k s.q →
      qRowsNormalized N k (fzStepFn O R X y N D k kX s).q :=
    fun s hs2 => fzStep_preserves O R X y N D k kX hexp hsqrt s hs2
  refine ⟨hinit, hstep, ?_⟩
  exact runLoop_inv (fzStepFn O R X y N D k kX) (fzConv N k)
    (fun st => qRowsNormalized N k st.q) hstep max_iter
    ⟨fzInit R k q0, 0, false⟩ hinit

/-- Witness for C5 at a one-point, one-cluster instance with trivial
numeric stand-ins. -/
theorem c5_witness :
    qRowsNormalized 1 1 (fzInit (σ := Unit) regZero 1 (fun _ _ => 1)).q ∧
    (∀ s : FzSt Unit, qRowsNormalized 1 1 s.q →
        qRowsNormalized 1 1
          (fzStepFn numOne regZero (fun _ _ => 0) (fun _ => 0) 1 1 1 0 s).q) ∧
    qRowsNormalized 1 1
      (fzFull numOne regZero (fun _ _ => 0) (fun _ => 0) 1 1 1 0 1
        (fun _ _ => 1)).st.q :=
  c5_q_invariant numOne regZero (fun _ _ => 0) (fun _ => 0) 1 1 1 0 1
    (fun _ _ => 1)
    (fun t => by norm_num [numOne])
    (fun t => by norm_num [numOne])
    (fun i _ c _ => by norm_num)
    (fun i _ => by norm_num [sumR])

/-- C6: the objective returned by `fuzzy_clr` equals the negative
log-likelihood `-sum(log(sum(lmbda * probs, axis=1)))` evaluated on the
`lmbda` and `probs` of the loop's final (pre-break) state, which for
`max_iter ≥ 1` is exactly the state produced by the last executed
iteration — including when the loop exits early by convergence (the
equality is unconditional in the loop's exit mode). -/
theorem c6_objective_formula (O : NumOps) {σ : Type} (R : Reg σ) (X : Mat)
    (y : Vec) (N D k : ℕ) (kX : ℚ) (max_iter : ℕ) (q0 : Mat)
    (hmi : 1 ≤ max_iter) :
    (fuzzy_clr O R X y N D k kX max_iter q0).obj
      = negLogLike O N k (fzFull O R X y N D k kX max_iter q0).st.lmbda
          (fzFull O R X y N D k kX max_iter q0).st.probs ∧
    ∃ b : FzSt σ, (fzFull O R X y N D k kX max_iter q0).st
        = fzStepFn O R X y N D k kX b :=
  ⟨rfl, runLoop_st_of_pos (fzStepFn O R X y N D k kX) (fzConv N k) max_iter
    ⟨fzInit R k q0, 0, false⟩ hmi⟩

/-- Witness for C6 at a one-point, one-cluster instance. -/
theorem c6_witness :
    (fuzzy_clr numOne regZero (fun _ _ => 0) (fun _ => 0) 1 1 1 0 1
        (fun _ _ => 1)).obj
      = negLogLike numOne 1 1
          (fzFull numOne regZero (fun _ _ => 0) (fun _ => 0) 1 1 1 0 1
            (fun _ _ => 1)).st.lmbda
          (fzFull numOne regZero (fun _ _ => 0) (fun _ => 0) 1 1 1 0 1
            (fun _ _ => 1)).st.probs ∧
    ∃ b : FzSt Unit,
      (fzFull numOne regZero (fun _ _ => 0) (fun _ => 0) 1 1 1 0 1
          (fun _ _ => 1)).st
        = fzStepFn numOne regZero (fun _ _ => 0) (fun _ => 0) 1 1 1 0 b :=
  c6_objective_formula numOne regZero (fun _ _ => 0) (fun _ => 0) 1 1 1 0 1
    (fun _ _ => 1) (le_refl 1)

/-- The fraction of points hard-assigned to cluster `c` by a label
vector: the quantity C10 distinguishes from the returned `lmbda`. -/
def hardFrac (N : ℕ) (labels : ℕ → ℕ) (c : ℕ) : ℚ :=
  ((maskList N labels c).length : ℚ) / N

theorem argmaxVec_two (f : ℕ → ℚ) (h : ¬f 0 < f 1) : argmaxVec 2 f = 0 := by
  show argmaxGo f 2 0 0 = 0
  have e1 : argmaxGo f 2 0 0 = argmaxGo f 1 1 (if f 0 < f 0 then 0 else 0) := rfl
  rw [e1, if_neg (lt_irrefl (f 0))]
  have e2 : argmaxGo f 1 1 0 = argmaxGo f 0 2 (if f 0 < f 1 then 1 else 0) := rfl
  rw [e2, if_neg h]
  rfl

theorem fc_label0 : argmaxVec 2 (fcS1.q 0) = 0 := by
  apply argmaxVec_two
  rw [fc_qn0, fc_qn1]
  norm_num

/-- C10: the third value returned by `fuzzy_clr` is the `lmbda` vector of
the final M-step; for `max_iter ≥ 1` its entry `c` is the mean over the
`N` points of the pre-E-step responsibility column `c`, so the entries
sum to 1 whenever those responsibility rows sum to 1; and it is not
recomputed from the final hard labels — at a concrete instance (the
`fcQ0` run) the returned vector differs from the fraction of points
hard-assigned to each cluster. -/
theorem c10_lmbda_returned (O : NumOps) {σ : Type} (R : Reg σ) (X : Mat)
    (y : Vec) (N D k : ℕ) (kX : ℚ) (max_iter : ℕ) (q0 : Mat)
    (hmi : 1 ≤ max_iter) (hN : 0 < N) :
    (fuzzy_clr O R X y N D k kX max_iter q0).weights
        = (fzFull O R X y N D k kX max_iter q0).st.lmbda ∧
    (∀ c, (fzFull O R X y N D k kX max_iter q0).st.lmbda c
        = (sumR N fun i =>
            (fzFull O R X y N D k kX max_iter q0).st.qPrev i c) / N) ∧
    ((∀ i < N, sumR k ((fzFull O R X y N D k kX max_iter q0).st.qPrev i) = 1)
        → sumR k (fzFull O R X y N D k kX max_iter q0).st.lmbda = 1) ∧
    (fuzzy_clr fcOps fcReg fcX fcY 1 1 2 0 5 fcQ0).weights 0
        ≠ hardFrac 1 (fuzzy_clr fcOps fcReg fcX fcY 1 1 2 0 5 fcQ0).labels 0 := by
  obtain ⟨b, hb⟩ := runLoop_st_of_pos (fzStepFn O R X y N D k kX)
    (fzConv N k) max_iter ⟨fzInit R k q0, 0, false⟩ hmi
  have hb2 : (fzFull O R X y N D k kX max_iter q0).st
      = fzStepFn O R X y N D k kX b := hb
  refine ⟨rfl, ?_, ?_, ?_⟩
  · intro c
    rw [hb2, fzStepFn_lmbda, fzStepFn_qPrev]
    rfl
  · intro hrows
    rw [hb2, fzStepFn_qPrev] at hrows
    rw [hb2, fzStepFn_lmbda]
    show sumR k (fzLmbda N b.q) = 1
    exact fzLmbda_rowsum N k b.q hN hrows
  · have ew : (fuzzy_clr fcOps fcReg fcX fcY 1 1 2 0 5 fcQ0).weights
        = fcRun.st.lmbda := rfl
    have el : (fuzzy_clr fcOps fcReg fcX fcY 1 1 2 0 5 fcQ0).labels
        = fun i => argmaxVec 2 (fcRun.st.q i) := rfl
    rw [ew, el, fc_run_eq]
    show fcS1.lmbda 0 ≠ hardFrac 1 (fun i => argmaxVec 2 (fcS1.q i)) 0
    have elm : fcS1.lmbda 0 = 3 / 5 := by
      rw [show fcS1.lmbda = fun c => fzLmbda 1 (fzInitQ 2 fcQ0) c from rfl]
      exact fc_lm0
    have ehf : hardFrac 1 (fun i => argmaxVec 2 (fcS1.q i)) 0 = 1 := by
      rw [hardFrac]
      have em : maskList 1 (fun i => argmaxVec 2 (fcS1.q i)) 0 = [0] := by
        rw [maskList, show List.range 1 = [0] from rfl]
        simp [fc_label0]
      rw [em]
      norm_num
    rw [elm, ehf]
    norm_num

/-- Witness for C10 at a one-point, one-cluster instance. -/
theorem c10_witness :
    (fuzzy_clr numOne regZero (fun _ _ => 0) (fun _ => 0) 1 1 1 0 1
        (fun _ _ => 1)).weights
      = (fzFull numOne regZero (fun _ _ => 0) (fun _ => 0) 1 1 1 0 1
          (fun _ _ => 1)).st.lmbda ∧
    (∀ c, (fzFull numOne regZero (fun _ _ => 0) (fun _ => 0) 1 1 1 0 1
          (fun _ _ => 1)).st.lmbda c
        = (sumR 1 fun i =>
            (fzFull numOne regZero (fun _ _ => 0) (fun _ => 0) 1 1 1 0 1
              (fun _ _ => 1)).st.qPrev i c) / 1) ∧
    ((∀ i < 1, sumR 1
          ((fzFull numOne regZero (fun _ _ => 0) (fun _ => 0) 1 1 1 0 1
            (fun _ _ => 1)).st.qPrev i) = 1)
        → sumR 1 (fzFull numOne regZero (fun _ _ => 0) (fun _ => 0) 1 1 1 0 1
            (fun _ _ => 1)).st.lmbda = 1) ∧
    (fuzzy_clr fcOps fcReg fcX fcY 1 1 2 0 5 fcQ0).weights 0
        ≠ hardFrac 1 (fuzzy_clr fcOps fcReg fcX fcY 1 1 2 0 5 fcQ0).labels 0 :=
  c10_lmbda_returned numOne regZero (fun _ _ => 0) (fun _ => 0) 1 1 1 0 1
    (fun _ _ => 1) (le_refl 1) (by norm_num)

/-- A numpy float scalar as the multi-start driver compares them: a
rational value, or one of the IEEE specials an objective can degenerate
to (`np.inf` is also the driver's initial best). -/
inductive NpF
  | nan : NpF
  | pinf : NpF
  | ninf : NpF
  | val : ℚ → NpF

/-- IEEE-style `<` on such scalars: every comparison with `nan` is
false. -/
def npflt : NpF → NpF → Bool
  | NpF.nan, _ => false
  | _, NpF.nan => false
  | NpF.ninf, NpF.ninf => false
  | NpF.ninf, _ => true
  | _, NpF.ninf => false
  | NpF.pinf, _ => false
  | NpF.val _, NpF.pinf => true
  | NpF.val a, NpF.val b => decide (a < b)

/-- The four components one optimizer run hands to `best_clr`. -/
structure RunOut (σ : Type) where
  labels : ℕ → ℕ
  models : ℕ → σ
  weights : ℕ → ℚ
  obj : NpF

/-- Embedding of `best_clr`'s selection loop over `num_tries` runs:
`best_obj` starts at `np.inf` and a run is kept exactly when its
objective compares strictly below the current best.  The result is
`none` when no run ever improves on `np.inf` — the case in which the
Python function raises `UnboundLocalError` on its unbound result
variables instead of returning. -/
def best_clr {σ : Type} (tries : ℕ → RunOut σ) (num_tries : ℕ) :
    Option (RunOut σ) :=
  (List.range num_tries).foldl
    (fun best i =>
      match best with
      | none => if npflt (tries i).obj NpF.pinf then some (tries i) else none
      | some b => if npflt (tries i).obj b.obj then some (tries i) else some b)
    none

/-- The i-th hard-CLR try of `best_clr(..., fuzzy=False)`: a fresh `clr`
run from the i-th random initialization, with its objective lifted into
the driver's scalar type. -/
def clrTry {σ : Type} (R : Reg σ) (X : Mat) (y : Vec) (N D k : ℕ)
    (kX : ℚ) (constr : Option (ℕ → ℕ)) (junk : ℕ → ℕ) (max_iter : ℕ)
    (inits : ℕ → ℕ → ℕ) (i : ℕ) : RunOut σ :=
  let c := clr R X y N D k kX constr junk max_iter (inits i)
  ⟨c.labels, c.models, c.weights, NpF.val c.obj⟩

/-- The i-th fuzzy try of `best_clr(..., fuzzy=True)`. -/
def fzTry (O : NumOps) {σ : Type} (R : Reg σ) (X : Mat) (y : Vec)
    (N D k : ℕ) (kX : ℚ) (max_iter : ℕ) (qinits : ℕ → Mat) (i : ℕ) :
    RunOut σ :=
  let c := fuzzy_clr O R X y N D k kX max_iter (qinits i)
  ⟨c.labels, c.models, c.weights, NpF.val c.obj⟩

/-- `best_clr` with `fuzzy=False`: the driver over `clr` runs. -/
def best_clr_hard {σ : Type} (R : Reg σ) (X : Mat) (y : Vec) (N D k : ℕ)
    (kX : ℚ) (constr : Option (ℕ → ℕ)) (junk : ℕ → ℕ) (max_iter : ℕ)
    (inits : ℕ → ℕ → ℕ) (num_tries : ℕ) : Option (RunOut σ) :=
  best_clr (clrTry R X y N D k kX constr junk max_iter inits) num_tries

/-- `best_clr` with `fuzzy=True`: the driver over `fuzzy_clr` runs. -/
def best_clr_fuzzy (O : NumOps) {σ : Type} (R : Reg σ) (X : Mat) (y : Vec)
    (N D k : ℕ) (kX : ℚ) (max_iter : ℕ) (qinits : ℕ → Mat)
    (num_tries : ℕ) : Option (RunOut σ) :=
  best_clr (fzTry O R X y N D k kX max_iter qinits) num_tries

theorem best_clr_succ {σ : Type} (tries : ℕ → RunOut σ) (m : ℕ) :
    best_clr tries (m + 1) =
      match best_clr tries m with
      | none => if npflt (tries m).obj NpF.pinf then some (tries m) else none
      | some b => if npflt (tries m).obj b.obj then some (tries m) else some b := by
  rw [best_clr, best_clr, List.range_succ, List.foldl_append, List.foldl_cons,
    List.foldl_nil]

theorem best_clr_succ_none {σ : Type} (tries : ℕ → RunOut σ) (m : ℕ)
    (hb : best_clr tries m = none) :
    best_clr tries (m + 1) =
      if npflt (tries m).obj NpF.pinf then some (tries m) else none := by
  rw [best_clr_succ, hb]

theorem best_clr_succ_some {σ : Type} (tries : ℕ → RunOut σ) (m : ℕ)
    (b : RunOut σ) (hb : best_clr tries m = some b) :
    best_clr tries (m + 1) =
      if npflt (tries m).obj b.obj then some (tries m) else some b := by
  rw [best_clr_succ, hb]

/-- The selection invariant of `best_clr` over runs with finite (`val`)
objectives: the returned run is the first one attaining the minimum
objective. -/
theorem best_clr_spec {σ : Type} (tries : ℕ → RunOut σ) (f : ℕ → ℚ)
    (hv : ∀ i, (tries i).obj = NpF.val (f i)) :
    ∀ n, 0 < n → ∃ i0, best_clr tries n = some (tries i0) ∧ i0 < n ∧
      (∀ i < n, f i0 ≤ f i) ∧ (∀ j < i0, f i0 < f j) := by
  intro n
  induction n with
  | zero => omega
  | succ m ih =>
      intro _
      rcases Nat.eq_zero_or_pos m with rfl | hm
      · refine ⟨0, ?_, by omega, ?_, by omega⟩
        · rw [best_clr_succ_none tries 0 rfl, hv 0]
          rfl
        · intro i hi
          interval_cases i
          exact le_refl _
      · obtain ⟨i0, hbest, hi0, hmin, hfirst⟩ := ih hm
        rw [best_clr_succ_some tries m (tries i0) hbest, hv m, hv i0]
        by_cases hlt : f m < f i0
        · rw [show npflt (NpF.val (f m)) (NpF.val (f i0)) = decide (f m < f i0)
            from rfl, if_pos (decide_eq_true hlt)]
          refine ⟨m, rfl, by omega, ?_, ?_⟩
          · intro i hi
            rcases Nat.lt_succ_iff_lt_or_eq.mp hi with hi' | rfl
            · exact le_of_lt (lt_of_lt_of_le hlt (hmin i hi'))
            · exact le_refl _
          · intro j hj
            exact lt_of_lt_of_le hlt (hmin j hj)
        · rw [show npflt (NpF.val (f m)) (NpF.val (f i0)) = decide (f m < f i0)
            from rfl, if_neg (by simpa using hlt)]
          refine ⟨i0, rfl, by omega, ?_, hfirst⟩
          intro i hi
          rcases Nat.lt_succ_iff_lt_or_eq.mp hi with hi' | rfl
          · exact hmin i hi'
          · exact le_of_not_lt hlt

/-- C7: for `num_tries = n > 0` (in particular `n > 1`), `best_clr`
returns a run whose objective is ≤ the objective of every individual
optimizer run, and the returned labels/models/weights are those of the
first run attaining the minimum (every earlier run has strictly larger
objective) — stated for both the hard (`clr`) and the fuzzy
(`fuzzy_clr`) driver. -/
theorem c7_best_of_n {σ : Type} (R : Reg σ) (X : Mat) (y : Vec)
    (N D k : ℕ) (kX : ℚ) (constr : Option (ℕ → ℕ)) (junk : ℕ → ℕ)
    (max_iter : ℕ) (inits : ℕ → ℕ → ℕ) (O : NumOps) (qinits : ℕ → Mat)
    (n : ℕ) (hn : 0 < n) :
    (∃ i0, best_clr_hard R X y N D k kX constr junk max_iter inits n
        = some (clrTry R X y N D k kX constr junk max_iter inits i0) ∧
      i0 < n ∧
      (∀ i < n, (clr R X y N D k kX constr junk max_iter (inits i0)).obj
          ≤ (clr R X y N D k kX constr junk max_iter (inits i)).obj) ∧
      (∀ j < i0, (clr R X y N D k kX constr junk max_iter (inits i0)).obj
          < (clr R X y N D k kX constr junk max_iter (inits j)).obj)) ∧
    (∃ i0, best_clr_fuzzy O R X y N D k kX max_iter qinits n
        = some (fzTry O R X y N D k kX max_iter qinits i0) ∧
      i0 < n ∧
      (∀ i < n, (fuzzy_clr O R X y N D k kX max_iter (qinits i0)).obj
          ≤ (fuzzy_clr O R X y N D k kX max_iter (qinits i)).obj) ∧
      (∀ j < i0, (fuzzy_clr O R X y N D k kX max_iter (qinits i0)).obj
          < (fuzzy_clr O R X y N D k kX max_iter (qinits j)).obj)) := by
  constructor
  · obtain ⟨i0, h1, h2, h3, h4⟩ := best_clr_spec
      (clrTry R X y N D k kX constr junk max_iter inits)
      (fun i => (clr R X y N D k kX constr junk max_iter (inits i)).obj)
      (fun i => rfl) n hn
    exact ⟨i0, h1, h2, h3, h4⟩
  · obtain ⟨i0, h1, h2, h3, h4⟩ := best_clr_spec
      (fzTry O R X y N D k kX max_iter qinits)
      (fun i => (fuzzy_clr O R X y N D k kX max_iter (qinits i)).obj)
      (fun i => rfl) n hn
    exact ⟨i0, h1, h2, h3, h4⟩

/-- Witness for C7 with two tries of a trivial one-point instance. -/
theorem c7_witness :
    (∃ i0, best_clr_hard regZero (fun _ _ => 0) (fun _ => 0) 1 1 1 0 none
        (fun _ => 0) 1 (fun _ _ => 0) 2
        = some (clrTry regZero (fun _ _ => 0) (fun _ => 0) 1 1 1 0 none
            (fun _ => 0) 1 (fun _ _ => 0) i0) ∧
      i0 < 2 ∧
      (∀ i < 2, (clr regZero (fun _ _ => 0) (fun _ => 0) 1 1 1 0 none
            (fun _ => 0) 1 ((fun _ _ => 0) i0)).obj
          ≤ (clr regZero (fun _ _ => 0) (fun _ => 0) 1 1 1 0 none
            (fun _ => 0) 1 ((fun _ _ => 0) i)).obj) ∧
      (∀ j < i0, (clr regZero (fun _ _ => 0) (fun _ => 0) 1 1 1 0 none
            (fun _ => 0) 1 ((fun _ _ => 0) i0)).obj
          < (clr regZero (fun _ _ => 0) (fun _ => 0) 1 1 1 0 none
            (fun _ => 0) 1 ((fun _ _ => 0) j)).obj)) ∧
    (∃ i0, best_clr_fuzzy numOne regZero (fun _ _ => 0) (fun _ => 0) 1 1 1 0 1
        (fun _ _ _ => 1) 2
        = some (fzTry numOne regZero (fun _ _ => 0) (fun _ => 0) 1 1 1 0 1
            (fun _ _ _ => 1) i0) ∧
      i0 < 2 ∧
      (∀ i < 2, (fuzzy_clr numOne regZero (fun _ _ => 0) (fun _ => 0) 1 1 1 0 1
            ((fun _ _ _ => 1) i0)).obj
          ≤ (fuzzy_clr numOne regZero (fun _ _ => 0) (fun _ => 0) 1 1 1 0 1
            ((fun _ _ _ => 1) i)).obj) ∧
      (∀ j < i0, (fuzzy_clr numOne regZero (fun _ _ => 0) (fun _ => 0) 1 1 1 0 1
            ((fun _ _ _ => 1) i0)).obj
          < (fuzzy_clr numOne regZero (fun _ _ => 0) (fun _ => 0) 1 1 1 0 1
            ((fun _ _ _ => 1) j)).obj)) :=
  c7_best_of_n regZero (fun _ _ => 0) (fun _ => 0) 1 1 1 0 none (fun _ => 0)
    1 (fun _ _ => 0) numOne (fun _ _ _ => 1) 2 (by norm_num)

/-- C8: `best_clr` with `num_tries = 1` returns exactly the four
components of one call of the selected optimizer — `clr` when
`fuzzy=False`, `fuzzy_clr` when `fuzzy=True` — on the same keyword
arguments and the same (first) random initialization. -/
theorem c8_single_try_equiv {σ : Type} (R : Reg σ) (X : Mat) (y : Vec)
    (N D k : ℕ) (kX : ℚ) (constr : Option (ℕ → ℕ)) (junk : ℕ → ℕ)
    (max_iter : ℕ) (inits : ℕ → ℕ → ℕ) (O : NumOps) (qinits : ℕ → Mat) :
    best_clr_hard R X y N D k kX constr junk max_iter inits 1
      = some ⟨(clr R X y N D k kX constr junk max_iter (inits 0)).labels,
          (clr R X y N D k kX constr junk max_iter (inits 0)).models,
          (clr R X y N D k kX constr junk max_iter (inits 0)).weights,
          NpF.val (clr R X y N D k kX constr junk max_iter (inits 0)).obj⟩ ∧
    best_clr_fuzzy O R X y N D k kX max_iter qinits 1
      = some ⟨(fuzzy_clr O R X y N D k kX max_iter (qinits 0)).labels,
          (fuzzy_clr O R X y N D k kX max_iter (qinits 0)).models,
          (fuzzy_clr O R X y N D k kX max_iter (qinits 0)).weights,
          NpF.val (fuzzy_clr O R X y N D k kX max_iter (qinits 0)).obj⟩ :=
  ⟨rfl, rfl⟩

theorem npflt_nan_left (x : NpF) : npflt NpF.nan x = false := by
  cases x <;> rfl

/-- C9: if no try improves on the initial best of `np.inf` the driver
yields no result (modelled as `none`, where Python raises on its unbound
result variables): with `num_tries = 0`, and whenever every run's
objective is `nan` or `+inf`; moreover a run whose objective is `nan` is
never the selected best. -/
theorem c9_no_improvement_error {σ : Type} :
    (∀ tries : ℕ → RunOut σ, best_clr tries 0 = none) ∧
    (∀ (tries : ℕ → RunOut σ) (n : ℕ),
        (∀ i < n, (tries i).obj = NpF.nan ∨ (tries i).obj = NpF.pinf) →
        best_clr tries n = none) ∧
    (∀ (tries : ℕ → RunOut σ) (n : ℕ) (r : RunOut σ),
        best_clr tries n = some r → r.obj ≠ NpF.nan) := by
  refine ⟨fun tries => rfl, ?_, ?_⟩
  · intro tries n
    induction n with
    | zero => intro _; rfl
    | succ m ih =>
        intro h
        have hm : best_clr tries m = none := ih fun i hi => h i (by omega)
        rw [best_clr_succ_none tries m hm]
        rcases h m (by omega) with hnan | hpinf
        · rw [hnan]; rfl
        · rw [hpinf]; rfl
  · intro tries n
    induction n with
    | zero =>
        intro r h
        exact absurd h (by simp [best_clr])
    | succ m ih =>
        intro r h
        cases hbm : best_clr tries m with
        | none =>
            rw [best_clr_succ_none tries m hbm] at h
            by_cases hc : npflt (tries m).obj NpF.pinf = true
            · rw [if_pos hc] at h
              have hr : r = tries m := by
                injection h with h2; exact h2.symm
              intro hnan
              rw [hr] at hnan
              rw [hnan, npflt_nan_left] at hc
              exact Bool.false_ne_true hc
            · rw [if_neg hc] at h
              exact absurd h (by simp)
        | some b =>
            rw [best_clr_succ_some tries m b hbm] at h
            by_cases hc : npflt (tries m).obj b.obj = true
            · rw [if_pos hc] at h
              have hr : r = tries m := by
                injection h with h2; exact h2.symm
              intro hnan
              rw [hr] at hnan
              rw [hnan, npflt_nan_left] at hc
              exact Bool.false_ne_true hc
            · rw [if_neg hc] at h
              have hr : r = b := by injection h with h2; exact h2.symm
              rw [hr]
              exact ih b hbm

/-- Witness for C9 with a single all-nan try. -/
theorem c9_witness :
    best_clr (σ := Unit)
        (fun _ => ⟨fun _ => 0, fun _ => (), fun _ => 0, NpF.nan⟩) 0 = none ∧
    best_clr (σ := Unit)
        (fun _ => ⟨fun _ => 0, fun _ => (), fun _ => 0, NpF.nan⟩) 1 = none ∧
    ∀ r, best_clr (σ := Unit)
        (fun _ => ⟨fun _ => 0, fun _ => (), fun _ => 0, NpF.nan⟩) 1 = some r
      → r.obj ≠ NpF.nan :=
  ⟨c9_no_improvement_error.1 _,
    c9_no_improvement_error.2.1 _ 1 (fun _ _ => Or.inl rfl),
    fun r h => c9_no_improvement_error.2.2 _ 1 r h⟩

end ClrSpec
